import Mathlib

/-!
Verification of the SecondBrain knowledge-capture service against its
specification.  The development shallowly embeds the request handlers of the
API routes (entry CRUD, AI classify-and-create, the task and project chat
adapters, and the daily digest) as pure Lean functions over an explicit
record store, together with the string-processing helpers they rely on
(JSON parsing of model replies, the regex-based action-block extraction,
markdown code-fence stripping, and the natural-language date resolver).

Conventions of the embedding:
* JavaScript strings are `List Char` (`Str`); only ASCII behaviour of
  `toLowerCase`, whitespace classes and `trim` is modelled, which covers
  every string the handlers build or inspect.
* `JSON.parse` is modelled by an executable parser `jsonParse` over the
  JSON grammar; numeric literals are kept exactly as a decimal mantissa and
  exponent (`Json.num m e`, denoting m * 10 ^ e) instead of binary64
  doubles, and `\uXXXX` escapes outside the scalar range fall back to the
  default character.  No claim depends on the difference.
* `Date` values are UTC milliseconds since the epoch (`Int`); the local
  timezone of the server is modelled as UTC with no DST transitions, and
  `Date.prototype.toISOString` is modelled by an injective rendering
  `toISOStringM` of the timestamp (no claim inspects the calendar text).
  Generic date parsing by the `Date` constructor is an oracle parameter.
* The hosted-model call of each adapter is a parameter (the reply string);
  a `modelCalled` flag records whether the handler reached the call, and a
  `touched` flag records whether it issued any query against the store.
* The database table is a list of well-typed rows (`Entry`), reflecting
  the column types of the entries table declared in `src/lib/supabase.ts`.
-/

/-! ### Strings -/

/-- JavaScript strings, modelled as lists of characters. -/
abbrev Str := List Char

/-- Whitespace recognised by the JSON grammar (`JSON.parse`). -/
def isJsonWS (c : Char) : Bool :=
  c == ' ' || c == '\t' || c == '\n' || c == '\r'

/-- Whitespace recognised by the regex class `\s` and by `String.prototype.trim`
(ASCII part; the Unicode spaces never occur in the strings the code builds). -/
def isJsWS (c : Char) : Bool :=
  c == ' ' || c == '\t' || c == '\n' || c == '\r' || c == '\x0b' || c == '\x0c'

/-- Models `String.prototype.toLowerCase` (ASCII range). -/
def toLowerStr (s : Str) : Str := s.map Char.toLower

/-- Models `String.prototype.trim`. -/
def trimStr (s : Str) : Str :=
  ((s.dropWhile isJsWS).reverse.dropWhile isJsWS).reverse

/-- Boolean prefix test: does `s` start with `pat`? -/
def startsWith (s pat : Str) : Bool :=
  match pat with
  | [] => true
  | p :: ps =>
    match s with
    | [] => false
    | c :: cs => p == c && startsWith cs ps
termination_by structural pat

/-- Models `String.prototype.includes`: `pat` occurs as a contiguous
substring of `s`. -/
def containsStr (s pat : Str) : Bool :=
  match s with
  | [] => startsWith [] pat
  | _ :: cs => startsWith s pat || containsStr cs pat

/-- Models `String.prototype.replace` with a plain-string pattern and the
empty replacement: removes the first occurrence of `pat` (no-op when `pat`
does not occur). -/
def replaceFirst (s pat : Str) : Str :=
  if startsWith s pat then s.drop pat.length
  else match s with
       | [] => []
       | c :: cs => c :: replaceFirst cs pat

/-- Numeric value of a decimal digit character (code point 48 is the
digit zero). -/
def digitVal (c : Char) : Nat := c.toNat - 48

/-- Value of a string of decimal digits (used for `parseInt` on the groups
captured by the clock-time regex, which are all plain digit runs). -/
def digitsToNat (ds : Str) : Nat := ds.foldl (fun acc c => 10 * acc + digitVal c) 0

/-! ### JSON values and the model of JSON.parse -/

/-- JSON values.  Numbers are kept in exact decimal form: `num m e` denotes
the rational m * 10 ^ e produced by the literal. -/
inductive Json where
  | null
  | bool (b : Bool)
  | num (m : Int) (e : Int)
  | str (s : Str)
  | arr (xs : List Json)
  | obj (fields : List (Str × Json))

/-- First binding of key `k` in an object field list (JavaScript property
lookup; `jsonParse` keeps field lists duplicate-free). -/
def fieldsGet (fs : List (Str × Json)) (k : Str) : Option Json :=
  match fs with
  | [] => none
  | (k0, v) :: t => if k0 = k then some v else fieldsGet t k

/-- Models JavaScript property read `j.k`: `none` plays the role of
`undefined` (also for reads on non-objects, whose named properties are
never relevant here). -/
def jget (j : Json) (k : Str) : Option Json :=
  match j with
  | Json.obj fs => fieldsGet fs k
  | _ => none

/-- Models JavaScript property assignment `o.k = v` on a duplicate-free
field list: overwrites in place, or appends a new binding. -/
def objInsert (fs : List (Str × Json)) (k : Str) (v : Json) : List (Str × Json) :=
  match fs with
  | [] => [(k, v)]
  | (k0, v0) :: t => if k0 = k then (k0, v) :: t else (k0, v0) :: objInsert t k v

/-- Models `delete o.k` on a duplicate-free field list. -/
def objDelete (fs : List (Str × Json)) (k : Str) : List (Str × Json) :=
  match fs with
  | [] => []
  | (k0, v0) :: t => if k0 = k then t else (k0, v0) :: objDelete t k

/-- Index-keyed fields contributed by spreading an indexed collection:
element `i` becomes a binding under the decimal rendering of `i`. -/
def idxFields (i : Nat) : List Json → List (Str × Json)
  | [] => []
  | v :: t => ((toString i).toList, v) :: idxFields (i + 1) t

/-- Own enumerable fields contributed by a spread `...j`.  Objects spread
their fields; a string spreads to index-keyed one-character strings and an
array to its index-keyed elements; `null`, booleans and numbers spread to
nothing. -/
def spreadFields (j : Json) : List (Str × Json) :=
  match j with
  | Json.obj fs => fs
  | Json.str s => idxFields 0 (s.map (fun c => Json.str [c]))
  | Json.arr vs => idxFields 0 vs
  | _ => []

/-- Models the object spread `\x7b...a, ...b\x7d`: the fields of `a`
assigned first, then the fields of `b` in order. -/
def jsMerge (a b : List (Str × Json)) : List (Str × Json) :=
  b.foldl (fun acc kv => objInsert acc kv.1 kv.2) a

/-- JavaScript truthiness of a JSON value. -/
def truthy (j : Json) : Bool :=
  match j with
  | Json.null => false
  | Json.bool b => b
  | Json.num m _ => m != 0
  | Json.str s => !s.isEmpty
  | Json.arr _ => true
  | Json.obj _ => true

/-- JavaScript truthiness of a possibly-`undefined` value. -/
def otruthy (j : Option Json) : Bool :=
  match j with
  | none => false
  | some v => truthy v

/-- Is the value a string? -/
def isStrJ (j : Json) : Bool :=
  match j with
  | Json.str _ => true
  | _ => false

/-- Hexadecimal digit value, for `\uXXXX` escapes, by code point: digits
occupy 48 to 57, the lowercase letters a to f occupy 97 to 102, and the
uppercase ones 65 to 70. -/
def hexVal (c : Char) : Option Nat :=
  let n := c.toNat
  if 48 ≤ n && n ≤ 57 then some (n - 48)
  else if 97 ≤ n && n ≤ 102 then some (n - 87)
  else if 65 ≤ n && n ≤ 70 then some (n - 55)
  else none

/-- Single-character escape sequences of JSON string literals: the two
quoting characters and the solidus stand for themselves, and the letters
b, f, n, r, t stand for backspace, form feed, newline, carriage return
and tab. -/
def escChar (c : Char) : Option Char :=
  match c with
  | '"' => some c
  | '\\' => some c
  | '/' => some c
  | 'b' => some '\x08'
  | 'f' => some '\x0c'
  | 'n' => some '\x0a'
  | 'r' => some '\x0d'
  | 't' => some '\x09'
  | _ => none

/-- Body of a JSON string literal, after the opening quote: returns the
decoded content and the rest after the closing quote.  Raw control
characters are rejected, as in `JSON.parse`. -/
def parseStrLit : Nat → Str → Option (Str × Str)
  | 0, _ => none
  | _ + 1, [] => none
  | fuel + 1, c :: cs =>
    if c == '"' then some ([], cs)
    else if c == '\\' then
      match cs with
      | [] => none
      | e :: cs2 =>
        if e == 'u' then
          match cs2 with
          | h1 :: h2 :: h3 :: h4 :: cs6 =>
            match hexVal h1, hexVal h2, hexVal h3, hexVal h4 with
            | some a, some b, some c3, some d =>
              (parseStrLit fuel cs6).map
                (fun p => (Char.ofNat (((a * 16 + b) * 16 + c3) * 16 + d) :: p.1, p.2))
            | _, _, _, _ => none
          | _ => none
        else
          match escChar e with
          | some ch => (parseStrLit fuel cs2).map (fun p => (ch :: p.1, p.2))
          | none => none
    else if c.toNat < 32 then none
    else (parseStrLit fuel cs).map (fun p => (c :: p.1, p.2))

/-- Longest prefix of decimal digits together with the rest. -/
def takeDigits (s : Str) : Str × Str := (s.takeWhile Char.isDigit, s.dropWhile Char.isDigit)

/-- Integer part of a JSON number after the optional sign: either a single
`0`, or a nonzero digit followed by digits (leading zeros are rejected, as
in `JSON.parse`). -/
def parseIntPart (s : Str) : Option (Str × Str) :=
  match s with
  | [] => none
  | c :: cs =>
    if c == '0' then
      match cs with
      | d :: _ => if d.isDigit then none else some (['0'], cs)
      | [] => some (['0'], [])
    else if c.isDigit then
      let p := takeDigits cs
      some (c :: p.1, p.2)
    else none

/-- Fraction part: a dot followed by at least one digit, if present. -/
def parseFracPart (s : Str) : Option (Str × Str) :=
  match s with
  | '.' :: cs =>
    let p := takeDigits cs
    if p.1.isEmpty then none else some (p.1, p.2)
  | _ => some ([], s)

/-- Exponent part: `e`/`E`, an optional sign, and at least one digit. -/
def parseExpPart (s : Str) : Option (Int × Str) :=
  match s with
  | c :: cs =>
    if c == 'e' || c == 'E' then
      let signAndRest : (Int → Int) × Str :=
        match cs with
        | '+' :: cs2 => (fun x => x, cs2)
        | '-' :: cs2 => (fun x => -x, cs2)
        | _ => (fun x => x, cs)
      let p := takeDigits signAndRest.2
      if p.1.isEmpty then none
      else some (signAndRest.1 (Int.ofNat (digitsToNat p.1)), p.2)
    else some (0, s)
  | [] => some (0, [])

/-- A JSON number literal, returned as exact decimal mantissa/exponent. -/
def parseNum (s : Str) : Option ((Int × Int) × Str) :=
  let signAndRest : (Int → Int) × Str :=
    match s with
    | '-' :: cs => (fun x => -x, cs)
    | _ => (fun x => x, s)
  (parseIntPart signAndRest.2).bind fun ip =>
  (parseFracPart ip.2).bind fun fp =>
  (parseExpPart fp.2).map fun ep =>
    ((signAndRest.1 (Int.ofNat (digitsToNat (ip.1 ++ fp.1))),
      ep.1 - Int.ofNat fp.1.length), ep.2)

mutual

/-- A JSON value (leading whitespace allowed), with the rest of the input.
The fuel argument only bounds recursion depth; `jsonParse` supplies enough
for any input. -/
def parseVal : Nat → Str → Option (Json × Str)
  | 0, _ => none
  | fuel + 1, s =>
    match s.dropWhile isJsonWS with
    | [] => none
    | c :: cs =>
      if c == '\x7b' then
        match cs.dropWhile isJsonWS with
        | '\x7d' :: r => some (Json.obj [], r)
        | _ => parseObjBody fuel [] cs
      else if c == '[' then
        match cs.dropWhile isJsonWS with
        | ']' :: r => some (Json.arr [], r)
        | _ => parseArrBody fuel [] cs
      else if c == '"' then
        (parseStrLit fuel cs).map (fun p => (Json.str p.1, p.2))
      else if c == 't' then
        if startsWith cs "rue".toList then some (Json.bool true, cs.drop 3) else none
      else if c == 'f' then
        if startsWith cs "alse".toList then some (Json.bool false, cs.drop 4) else none
      else if c == 'n' then
        if startsWith cs "ull".toList then some (Json.null, cs.drop 3) else none
      else if c == '-' || c.isDigit then
        (parseNum (c :: cs)).map (fun p => (Json.num p.1.1 p.1.2, p.2))
      else none

/-- Members of an object after the opening brace (non-empty case). -/
def parseObjBody : Nat → List (Str × Json) → Str → Option (Json × Str)
  | 0, _, _ => none
  | fuel + 1, acc, s =>
    match s.dropWhile isJsonWS with
    | '"' :: r =>
      (parseStrLit fuel r).bind fun kp =>
      match kp.2.dropWhile isJsonWS with
      | ':' :: r3 =>
        (parseVal fuel r3).bind fun vp =>
        match vp.2.dropWhile isJsonWS with
        | ',' :: r6 => parseObjBody fuel (objInsert acc kp.1 vp.1) r6
        | '\x7d' :: r6 => some (Json.obj (objInsert acc kp.1 vp.1), r6)
        | _ => none
      | _ => none
    | _ => none

/-- Elements of an array after the opening bracket (non-empty case). -/
def parseArrBody : Nat → List Json → Str → Option (Json × Str)
  | 0, _, _ => none
  | fuel + 1, acc, s =>
    (parseVal fuel s).bind fun vp =>
    match vp.2.dropWhile isJsonWS with
    | ',' :: r => parseArrBody fuel (acc ++ [vp.1]) r
    | ']' :: r => some (Json.arr (acc ++ [vp.1]), r)
    | _ => none

end

/-- Models `JSON.parse`: the whole input must be one JSON value surrounded
by whitespace; `none` plays the role of the thrown `SyntaxError`. -/
def jsonParse (s : Str) : Option Json :=
  match parseVal (2 * s.length + 4) s with
  | some (v, rest) => if (rest.dropWhile isJsonWS).isEmpty then some v else none
  | none => none

/-! ### Models of the regex scans over model replies -/

/-- Result of matching a pattern at the start of a string: the consumed
text and the rest. -/
abbrev MRes := Option (Str × Str)

/-- Literal piece of a pattern. -/
def mLit (pat : Str) (s : Str) : MRes :=
  if startsWith s pat then some (pat, s.drop pat.length) else none

/-- Piece `\s*` (greedy; every use in the handler patterns is followed by a
non-whitespace literal, so the greedy run needs no backtracking). -/
def mWS (s : Str) : MRes := some (s.takeWhile isJsWS, s.dropWhile isJsWS)

/-- Sequencing of pattern pieces. -/
def mSeq (f g : Str → MRes) (s : Str) : MRes :=
  (f s).bind fun p => (g p.2).map fun q => (p.1 ++ q.1, q.2)

/-- Ordered alternation of pattern pieces. -/
def mAlt (f g : Str → MRes) (s : Str) : MRes :=
  match f s with
  | some q => some q
  | none => g s

/-- Piece `"[^"]+"`: a quoted run of at least one non-quote character.  The
character class excludes the closing delimiter, so the greedy run is
deterministic. -/
def mQuoted (s : Str) : MRes :=
  match s with
  | [] => none
  | c :: cs =>
    if c = '"' then
      let body := cs.takeWhile (fun x => x != '"')
      let rest := cs.dropWhile (fun x => x != '"')
      if body.isEmpty then none
      else
        match rest with
        | [] => none
        | d :: r2 => if d = '"' then some (c :: (body ++ [d]), r2) else none
    else none

/-- Piece `\x7b[^\x7b\x7d]*\x7d`: a braced run of non-brace characters. -/
def mBraced (s : Str) : MRes :=
  match s with
  | [] => none
  | c :: cs =>
    if c = '\x7b' then
      let body := cs.takeWhile (fun x => x != '\x7b' && x != '\x7d')
      let rest := cs.dropWhile (fun x => x != '\x7b' && x != '\x7d')
      match rest with
      | [] => none
      | d :: r2 => if d = '\x7d' then some (c :: (body ++ [d]), r2) else none
    else none

/-- The literal `\x7b"action":` opening every action-block pattern. -/
def actionOpen : Str := '\x7b' :: "\"action\":".toList

/-- First alternative of the task-chat action regex:
`\x7b"action":\s*"[^"]+",\s*"(?:updates|url)":\s*\x7b[^\x7b\x7d]*\x7d\s*\x7d`. -/
def taskAlt1 : Str → MRes :=
  mSeq (mLit actionOpen) (mSeq mWS (mSeq mQuoted (mSeq (mLit [','])
    (mSeq mWS (mSeq (mAlt (mLit "\"updates\":".toList) (mLit "\"url\":".toList))
      (mSeq mWS (mSeq mBraced (mSeq mWS (mLit ['\x7d'])))))))))

/-- Second alternative of the task-chat action regex:
`\x7b"action":\s*"[^"]+",\s*"url":\s*"[^"]+"\s*\x7d`. -/
def taskAlt2 : Str → MRes :=
  mSeq (mLit actionOpen) (mSeq mWS (mSeq mQuoted (mSeq (mLit [','])
    (mSeq mWS (mSeq (mLit "\"url\":".toList)
      (mSeq mWS (mSeq mQuoted (mSeq mWS (mLit ['\x7d'])))))))))

/-- The full task-chat action pattern (ordered alternation). -/
def taskActionPat : Str → MRes := mAlt taskAlt1 taskAlt2

/-- Leftmost match of a pattern inside a string, as practised by
`String.prototype.match` without the global flag: the text before the
match, the matched text, and the text after it. -/
def scanSplit (p : Str → MRes) : Str → Option (Str × Str × Str)
  | [] =>
    match p [] with
    | some q => some ([], q.1, q.2)
    | none => none
  | c :: cs =>
    match p (c :: cs) with
    | some q => some ([], q.1, q.2)
    | none =>
      match scanSplit p cs with
      | some t => some (c :: t.1, t.2.1, t.2.2)
      | none => none

/-- First project/idea-chat pattern:
`\x7b"action":\s*"update",\s*"updates":\s*\x7b[^\x7b\x7d]*\x7d\x7d`. -/
def projPat1 : Str → MRes :=
  mSeq (mLit actionOpen) (mSeq mWS (mSeq (mLit "\"update\",".toList)
    (mSeq mWS (mSeq (mLit "\"updates\":".toList)
      (mSeq mWS (mSeq mBraced (mLit ['\x7d'])))))))

/-- Second project/idea-chat pattern:
`\x7b"action":\s*"[^"]+",\s*"updates":\s*\x7b[^\x7b\x7d]*\x7d\s*\x7d`. -/
def projPat2 : Str → MRes :=
  mSeq (mLit actionOpen) (mSeq mWS (mSeq mQuoted (mSeq (mLit [','])
    (mSeq mWS (mSeq (mLit "\"updates\":".toList)
      (mSeq mWS (mSeq mBraced (mSeq mWS (mLit ['\x7d'])))))))))

/-- Closing tail `\x7d\s*` followed by three backticks, used by the lazy
body of the fenced pattern. -/
def mCloseFence : Str → MRes :=
  mSeq (mLit ['\x7d']) (mSeq mWS (mLit "```".toList))

/-- Lazy body `[\s\S]*?` of the fenced pattern: the shortest run of
characters after which `\x7d\s*` and the closing fence match.  Returns the
run, the consumed closing tail, and the rest. -/
def lazyFenceBody : Nat → Str → Option (Str × Str × Str)
  | 0, _ => none
  | fuel + 1, s =>
    match mCloseFence s with
    | some q => some ([], q.1, q.2)
    | none =>
      match s with
      | [] => none
      | c :: cs =>
        match lazyFenceBody fuel cs with
        | some t => some (c :: t.1, t.2.1, t.2.2)
        | none => none

/-- Third project/idea-chat pattern, with its capture group:
three backticks, `json\s*`, then the lazy-braced capture `(\x7b[\s\S]*?\x7d)`,
then `\s*` and the closing fence.  Returns (whole match, captured group,
rest). -/
def fencedPatAt (s : Str) : Option (Str × Str × Str) :=
  match mSeq (mLit ("```json".toList)) mWS s with
  | some (m1, r1) =>
    match r1 with
    | '\x7b' :: r2 =>
      match lazyFenceBody r2.length r2 with
      | some (body, tailC, rest) =>
        some (m1 ++ '\x7b' :: (body ++ tailC), '\x7b' :: (body ++ ['\x7d']), rest)
      | none => none
    | _ => none
  | none => none

/-- Leftmost occurrence of the fenced pattern: text before the match, the
whole match, the captured group, and the rest. -/
def scanFenced : Str → Option (Str × Str × Str × Str)
  | [] => none
  | c :: cs =>
    match fencedPatAt (c :: cs) with
    | some (m, cap, rest) => some ([], m, cap, rest)
    | none =>
      match scanFenced cs with
      | some t => some (c :: t.1, t.2.1, t.2.2.1, t.2.2.2)
      | none => none

/-- The ordered pattern attempts of the project and idea chat handlers:
each pattern is searched over the whole reply before the next is tried.
Returns (text before match, whole match, matched JSON candidate, rest);
for the first two patterns the candidate is the whole match, for the
fenced pattern it is the capture group. -/
def projFind (msg : Str) : Option (Str × Str × Str × Str) :=
  match scanSplit projPat1 msg with
  | some (a, m, r) => some (a, m, m, r)
  | none =>
    match scanSplit projPat2 msg with
    | some (a, m, r) => some (a, m, m, r)
    | none => scanFenced msg

/-- One alternative of the clean-up regex: three backticks, `json`, `\s*`. -/
def cfAlt1 : Str → MRes := mSeq (mLit "```json".toList) mWS

/-- Other alternative of the clean-up regex: `\s*` then three backticks. -/
def cfAlt2 : Str → MRes := mSeq mWS (mLit "```".toList)

/-- Models the global replace with pattern (three backticks then
`json\s*`, or `\s*` then three backticks) and empty replacement, applied
by the chat handlers before `JSON.parse`. -/
def cleanFenceScan : Nat → Str → Str
  | 0, s => s
  | fuel + 1, s =>
    match s with
    | [] => []
    | c :: cs =>
      match mAlt cfAlt1 cfAlt2 (c :: cs) with
      | some q => cleanFenceScan fuel q.2
      | none => c :: cleanFenceScan fuel cs

/-- Models `matchedJson.replace(fence-pattern-global, empty).trim()`. -/
def cleanJson (s : Str) : Str := trimStr (cleanFenceScan (s.length + 1) s)

/-- Models the anchored prefix replace `three backticks, optional `json`
(case-insensitive), `\s*\n?`» used by the classifier and digest routes. -/
def stripLeadFence (s : Str) : Str :=
  if startsWith s "```".toList then
    let r := s.drop 3
    let r2 := if startsWith (toLowerStr (r.take 4)) "json".toList then r.drop 4 else r
    r2.dropWhile isJsWS
  else s

/-- Does the string consist entirely of three backticks followed by
whitespace (the end-anchored part of the trailing fence pattern)? -/
def isFenceToEnd (s : Str) : Bool :=
  startsWith s "```".toList && (s.drop 3).all isJsWS

/-- Does the string match `\n?` then three backticks then `\s*` up to its
end? -/
def isTrailMatch (s : Str) : Bool :=
  match s with
  | '\n' :: t => isFenceToEnd t
  | _ => isFenceToEnd s

/-- Text before the leftmost match of the end-anchored trailing fence
pattern, when the pattern matches. -/
def trailSplit : Str → Option Str
  | [] => none
  | c :: cs =>
    if isTrailMatch (c :: cs) then some []
    else match trailSplit cs with
         | some pre => some (c :: pre)
         | none => none

/-- Models the end-anchored replace `optional newline, three backticks,
`\s*`, end of input» with empty replacement. -/
def stripTrailFence (s : Str) : Str :=
  match trailSplit s with
  | some pre => pre
  | none => s

/-- Models the code-fence normalisation of the classifier and digest
routes: strip a leading fence, strip a trailing fence, trim. -/
def stripCodeFences (s : Str) : Str :=
  trimStr (stripTrailFence (stripLeadFence s))

/-! ### Dates -/

/-- Milliseconds per day, hour and minute. -/
def dayMs : Int := 86400000

/-- Milliseconds per hour. -/
def hourMs : Int := 3600000

/-- Milliseconds per minute. -/
def minuteMs : Int := 60000

/-- Start of the calendar day containing a timestamp (the server locale is
modelled as UTC). -/
def midnightOf (t : Int) : Int := (t.ediv dayMs) * dayMs

/-- Models `d.setHours(h, m, 0, 0)`: the start of the day of `d` plus the
given hours and minutes (JavaScript rolls oversized fields over into the
following days exactly as the arithmetic does). -/
def jsSetHours (t : Int) (h m : Nat) : Int :=
  midnightOf t + (h : Int) * hourMs + (m : Int) * minuteMs

/-- Models `Date.prototype.toISOString` as an injective rendering of the
timestamp.  The decimal digits of the millisecond count stand in for the
calendar text, which no claim inspects. -/
def toISOStringM (t : Int) : Str := (toString t).toList

/-- Models the clock-time regex `(\d{1,2})(?::(\d{2}))?\s*(am|pm)?` of the
date resolver: hour and minute digits and the meridiem (`some true` for pm,
`some false` for am) at the leftmost digit of the string; `none` when the
string has no digit.  Every piece after the hour digits is optional, so the
pattern matches exactly when a digit occurs. -/
def findClockMatch : Str → Option (Nat × Nat × Option Bool)
  | [] => none
  | c :: cs =>
    if c.isDigit then
      let hAndRest : Nat × Str :=
        match cs with
        | b :: r2 => if b.isDigit then (digitVal c * 10 + digitVal b, r2) else (digitVal c, b :: r2)
        | [] => (digitVal c, [])
      let mAndRest : Nat × Str :=
        match hAndRest.2 with
        | ':' :: x :: y :: r2 =>
          if x.isDigit && y.isDigit then (digitVal x * 10 + digitVal y, r2)
          else (0, hAndRest.2)
        | _ => (0, hAndRest.2)
      let r3 := mAndRest.2.dropWhile isJsWS
      let mer : Option Bool :=
        if startsWith r3 "am".toList then some false
        else if startsWith r3 "pm".toList then some true
        else none
      some (hAndRest.1, mAndRest.1, mer)
    else findClockMatch cs

/-- The natural-language date resolver `parseNaturalDate` of the task-chat
route.  `jsDateParse` is the oracle for the generic `new Date(string)`
constructor on the fall-through branch (`none` for an invalid date), and
`nowMs` is the current clock.  Returns the ISO rendering the source
returns, or `none`. -/
def parseNaturalDate (jsDateParse : Str → Option Int) (nowMs : Int) (input : Str) : Option Str :=
  let lowered := toLowerStr (trimStr input)
  if lowered = "today".toList then some (toISOStringM nowMs)
  else if lowered = "tomorrow".toList then some (toISOStringM (nowMs + dayMs))
  else if lowered = "next week".toList then some (toISOStringM (nowMs + 7 * dayMs))
  else
    match findClockMatch lowered with
    | some (h0, mins, mer) =>
      let h1 := if mer = some true && h0 < 12 then h0 + 12 else h0
      let h2 := if mer = some false && h1 = 12 then 0 else h1
      let base := if containsStr lowered "tomorrow".toList then nowMs + dayMs else nowMs
      some (toISOStringM (jsSetHours base h2 mins))
    | none =>
      match jsDateParse input with
      | some t => some (toISOStringM t)
      | none => none

/-! ### String coercion used by template literals -/

mutual

/-- Models string coercion of a value inside a template literal.  The
number rendering is an injective encoding standing in for the JavaScript
decimal rendering, and arrays join their elements with commas; no claim
inspects either text. -/
def jsToStr : Json → Str
  | Json.null => "null".toList
  | Json.bool true => "true".toList
  | Json.bool false => "false".toList
  | Json.num m e => (toString m).toList ++ 'e' :: (toString e).toList
  | Json.str s => s
  | Json.obj _ => "[object Object]".toList
  | Json.arr xs => jsToStrList xs

/-- Comma join of coerced array elements. -/
def jsToStrList : List Json → Str
  | [] => []
  | [x] => jsToStr x
  | x :: y :: t => jsToStr x ++ ',' :: jsToStrList (y :: t)

end

/-! ### The record store -/

/-- A row of the entries table.  Column types follow the table schema
reflected by the `Entry` interface in `src/lib/supabase.ts`: the category
is text, the payload is schemaless JSON, confidence is numeric (kept in
exact decimal form), the flags are booleans, and `created_at` is the
creation timestamp the listings order by. -/
structure Entry where
  id : Str
  user_id : Str
  category : Str
  data : Json
  confidence : Int × Int
  needs_review : Bool
  archived : Bool
  linked_entries : List Str
  created_at : Nat
  updated_at : Str

/-- The entries table. -/
abbrev Store := List Entry

/-- JSON serialisation of a row, as returned by the route handlers. -/
def entryToJson (e : Entry) : Json :=
  Json.obj [("id".toList, Json.str e.id),
            ("user_id".toList, Json.str e.user_id),
            ("category".toList, Json.str e.category),
            ("data".toList, e.data),
            ("confidence".toList, Json.num e.confidence.1 e.confidence.2),
            ("needs_review".toList, Json.bool e.needs_review),
            ("archived".toList, Json.bool e.archived),
            ("linked_entries".toList, Json.arr (e.linked_entries.map Json.str)),
            ("created_at".toList, Json.num (Int.ofNat e.created_at) 0),
            ("updated_at".toList, Json.str e.updated_at)]

/-- An HTTP response: status code and JSON body. -/
structure HttpResp where
  status : Nat
  body : Json

/-- Result of running a handler: the response, the store afterwards,
whether any store query or mutation was issued, and whether the outbound
model call was made. -/
structure HResult where
  resp : HttpResp
  store : Store
  touched : Bool
  modelCalled : Bool

/-- Body of an error response. -/
def errBody (msg : Str) : Json := Json.obj [("error".toList, Json.str msg)]

/-- The 401 response every route returns for a missing session. -/
def unauthorizedResp : HttpResp := ⟨401, errBody "Unauthorized".toList⟩

/-- Row predicate of the ownership-scoped single-row queries: the id and
the owner must both match. -/
def rowMatch (id uid : Str) (e : Entry) : Bool :=
  e.id == id && e.user_id == uid

/-- Insertion step of the ordering model for `order by created_at
descending`. -/
def insertByCreated (e : Entry) : List Entry → List Entry
  | [] => [e]
  | x :: xs => if x.created_at ≤ e.created_at then e :: x :: xs else x :: insertByCreated e xs

/-- Ordering model for `order by created_at descending` (the store sorts
the final result set; ties are broken arbitrarily by the database, here by
input order). -/
def sortByCreatedDesc : List Entry → List Entry
  | [] => []
  | e :: xs => insertByCreated e (sortByCreatedDesc xs)

/-! ### Entry CRUD handlers (src/app/api/entries) -/

/-- The query built by the list handler: rows of the caller, optionally
filtered by category, archived state (`only` means archived-only; any
value other than `true` keeps the default non-archived filter) and
needs-review, ordered by creation time descending. -/
def entriesQuery (store : Store) (uid : Str)
    (category archivedParam needsReviewParam : Option Str) : List Entry :=
  let q1 := store.filter (fun e => e.user_id == uid)
  let q2 := match category with
            | some c => if c.isEmpty then q1 else q1.filter (fun e => e.category == c)
            | none => q1
  let q3 := if archivedParam = some "only".toList then q2.filter (fun e => e.archived)
            else if archivedParam ≠ some "true".toList then q2.filter (fun e => !e.archived)
            else q2
  let q4 := if needsReviewParam = some "true".toList then q3.filter (fun e => e.needs_review)
            else q3
  sortByCreatedDesc q4

/-- GET /api/entries: list the entries of the caller with the optional
filters. -/
def entriesGET (userId : Option Str) (store : Store)
    (category archivedParam needsReviewParam : Option Str) : HResult :=
  match userId with
  | none => ⟨unauthorizedResp, store, false, false⟩
  | some uid =>
    let rows := entriesQuery store uid category archivedParam needsReviewParam
    ⟨⟨200, Json.arr (rows.map entryToJson)⟩, store, true, false⟩

/-- Body of a create-one request (the fields the handler reads; `archived`
may be supplied by a caller but the handler never reads it). -/
structure CreateBody where
  category : Str
  data : Json
  confidence : Option (Int × Int) := none
  needs_review : Option Bool := none
  linked_entries : Option (List Str) := none
  archived : Option Bool := none

/-- The row inserted by the create handler: confidence defaults to 1.0,
needs-review to false, the archived flag is always false, and the links
default to empty. -/
def manualEntry (uid : Str) (b : CreateBody) (newId : Str) (createdAt : Nat)
    (nowIso : Str) : Entry :=
  { id := newId
    user_id := uid
    category := b.category
    data := b.data
    confidence := b.confidence.getD (1, 0)
    needs_review := b.needs_review.getD false
    archived := false
    linked_entries := b.linked_entries.getD []
    created_at := createdAt
    updated_at := nowIso }

/-- POST /api/entries: create one entry for the caller. -/
def entriesPOST (userId : Option Str) (store : Store) (b : CreateBody)
    (newId : Str) (createdAt : Nat) (nowIso : Str) : HResult :=
  match userId with
  | none => ⟨unauthorizedResp, store, false, false⟩
  | some uid =>
    let e := manualEntry uid b newId createdAt nowIso
    ⟨⟨200, entryToJson e⟩, store ++ [e], true, false⟩

/-- GET /api/entries/[id]: read one entry scoped to the caller.  The
`single()` call reports PGRST116 when the scoped query returns no row (in
particular for another callers entry), which the handler maps to 404. -/
def entryGET (userId : Option Str) (store : Store) (id : Str) : HResult :=
  match userId with
  | none => ⟨unauthorizedResp, store, false, false⟩
  | some uid =>
    match store.filter (rowMatch id uid) with
    | [e] => ⟨⟨200, entryToJson e⟩, store, true, false⟩
    | _ => ⟨⟨404, errBody "Entry not found".toList⟩, store, true, false⟩

/-- Body of a partial-update request: only the five listed top-level
fields are ever applied, each only when present. -/
structure PatchBody where
  data : Option Json := none
  category : Option Str := none
  needs_review : Option Bool := none
  archived : Option Bool := none
  linked_entries : Option (List Str) := none

/-- The update record of the PATCH handler applied to a row: the present
fields overwrite, and `updated_at` is stamped. -/
def applyPatch (b : PatchBody) (nowIso : Str) (e : Entry) : Entry :=
  { e with
    updated_at := nowIso
    data := b.data.getD e.data
    category := b.category.getD e.category
    needs_review := b.needs_review.getD e.needs_review
    archived := b.archived.getD e.archived
    linked_entries := b.linked_entries.getD e.linked_entries }

/-- PATCH /api/entries/[id]: partial update scoped to the caller.  The
update applies to the rows matched by the scoped filter; the trailing
`select().single()` errors whenever that is not exactly one row, which the
handler maps to a generic 500 (it does not special-case PGRST116 here). -/
def entryPATCH (userId : Option Str) (store : Store) (id : Str) (b : PatchBody)
    (nowIso : Str) : HResult :=
  match userId with
  | none => ⟨unauthorizedResp, store, false, false⟩
  | some uid =>
    let store2 := store.map (fun e => if rowMatch id uid e then applyPatch b nowIso e else e)
    match (store.filter (rowMatch id uid)).map (applyPatch b nowIso) with
    | [e2] => ⟨⟨200, entryToJson e2⟩, store2, true, false⟩
    | _ => ⟨⟨500, errBody "Failed to update entry".toList⟩, store2, true, false⟩

/-- DELETE /api/entries/[id]: hard delete scoped to the caller.  A delete
matching no row is not an error for the store client, so the handler
answers success regardless of whether anything was deleted. -/
def entryDELETE (userId : Option Str) (store : Store) (id : Str) : HResult :=
  match userId with
  | none => ⟨unauthorizedResp, store, false, false⟩
  | some uid =>
    ⟨⟨200, Json.obj [("success".toList, Json.bool true)]⟩,
     store.filter (fun e => !rowMatch id uid e), true, false⟩

/-! ### Classify-and-create handler (the capture route) -/

/-- Strict order on numbers in decimal form: is m1 * 10 ^ e1 less than
m2 * 10 ^ e2?  Executable with integer arithmetic; `decLt_iff` relates it
to the rational order. -/
def decLt (m1 e1 m2 e2 : Int) : Bool :=
  if e1 ≤ e2 then m1 < m2 * 10 ^ (e2 - e1).toNat
  else m1 * 10 ^ (e1 - e2).toNat < m2

/-- Models `result.confidence < 0.6` with JavaScript comparison semantics:
true exactly for a numeric value below six tenths (`undefined` and
non-numeric values compare false; a numeric string would coerce, but such
a result is rejected later by the numeric column of the insert, so no
created entry is affected). -/
def confBelowCutoff (c : Option Json) : Bool :=
  match c with
  | some (Json.num m e) => decLt m e 6 (-1)
  | _ => false

/-- Exponent suffix of a positive `Number(s)` candidate: empty, or `e`/`E`
with an optional sign and at least one digit, consuming the rest. -/
def expTail (r : Str) : Bool :=
  match r with
  | [] => true
  | c :: r1 =>
    (c == 'e' || c == 'E') &&
    (let r2 := match r1 with
               | s :: r3 => if s == '+' || s == '-' then r3 else r1
               | [] => r1
     let p := takeDigits r2
     !p.1.isEmpty && p.2.isEmpty)

/-- Is an unsigned decimal numeral (digits, optional fraction, optional
exponent) well formed and positive?  Positive exactly when some mantissa
digit is nonzero: the exponent scales but never changes the sign. -/
def decPosVal (t : Str) : Bool :=
  let p := takeDigits t
  match p.2 with
  | '.' :: r2 =>
    let q := takeDigits r2
    !(p.1.isEmpty && q.1.isEmpty) && expTail q.2 && (p.1 ++ q.1).any (fun c => c != '0')
  | r1 => !p.1.isEmpty && expTail r1 && p.1.any (fun c => c != '0')

/-- Is `Number(s) > 0` in JavaScript: the trimmed text is a positive
decimal numeral, `Infinity` (optionally `+`-signed), or a nonzero hex,
octal or binary literal; everything else is nonpositive or NaN. -/
def jsNumberPos (s : Str) : Bool :=
  match trimStr s with
  | [] => false
  | '+' :: r => decPosVal r || r == "Infinity".toList
  | '-' :: _ => false
  | '0' :: x :: r =>
    if x == 'x' || x == 'X' then
      !r.isEmpty && r.all (fun c => c.isDigit || ('a' ≤ c && c ≤ 'f') || ('A' ≤ c && c ≤ 'F')) &&
        r.any (fun c => c != '0')
    else if x == 'o' || x == 'O' then
      !r.isEmpty && r.all (fun c => '0' ≤ c && c ≤ '7') && r.any (fun c => c != '0')
    else if x == 'b' || x == 'B' then
      !r.isEmpty && r.all (fun c => c == '0' || c == '1') && r.any (fun c => c == '1')
    else decPosVal ('0' :: x :: r)
  | t => decPosVal t || t == "Infinity".toList

/-- JavaScript `v > 0` for a parsed-JSON value `v` read off a `length`
property: `ToNumber(v) > 0`.  `null` and `false` coerce to 0 and `true` to
1; a number compares by the sign of its mantissa; a string coerces through
the `Number` grammar; an array coerces through its comma-joined rendering;
a plain object renders as `[object Object]`, which is NaN. -/
def toNumberPos (v : Json) : Bool :=
  match v with
  | Json.null => false
  | Json.bool b => b
  | Json.num m _ => decide (0 < m)
  | Json.str s => jsNumberPos s
  | Json.arr vs => jsNumberPos (jsToStrList vs)
  | Json.obj _ => false

/-- The people-linking gate
`result.mentionedPeople && result.mentionedPeople.length > 0`: a truthy
value whose `length` property compares above zero.  Only strings and
arrays carry a built-in `length` (their element count); on a plain object
the comparison reads a `length` field; on `null`, booleans and numbers the
read is `undefined`, which compares false. -/
def mentionGate (mp : Option Json) : Bool :=
  match mp with
  | none => false
  | some v =>
    truthy v &&
    (match v with
     | Json.str s => !s.isEmpty
     | Json.arr ms => !ms.isEmpty
     | Json.obj fs => match fieldsGet fs "length".toList with
                      | some lv => toNumberPos lv
                      | none => false
     | _ => false)

/-- The value of `(entry.data as ...).name?.toLowerCase()` for a people
row, or a thrown TypeError: reading `name` on a null payload throws; an
absent or null name short-circuits the optional chain to `undefined`
(`none`); a string name lowercases; any other name value has no
`toLowerCase` method and throws. -/
def evalLowerName (d : Json) : Except Unit (Option Str) :=
  match d with
  | Json.null => Except.error ()
  | Json.obj fs =>
    match fieldsGet fs "name".toList with
    | none => Except.ok none
    | some Json.null => Except.ok none
    | some (Json.str nm) => Except.ok (some (toLowerStr nm))
    | some _ => Except.error ()
  | _ => Except.ok none

/-- `mentionedPeople.some((mentioned) => name.includes(mentioned.toLowerCase()))`
for a defined lowercased name `nm`: elements are evaluated left to right,
stopping at the first hit; a non-string element reached before a hit has
no `toLowerCase` method and throws. -/
def someMention (nm : Str) : List Json → Except Unit Bool
  | [] => Except.ok false
  | Json.str q :: rest =>
    if containsStr nm (toLowerStr q) then Except.ok true else someMention nm rest
  | _ :: _ => Except.error ()

/-- The `peopleEntries.filter(...).map((entry) => entry.id)` computation
of the capture route over an array of mentioned values, in row order.  A
row whose name is `undefined` short-circuits every callback of the inner
`.some` (no mentioned value is evaluated) and is never linked; the first
TypeError thrown by a callback propagates. -/
def linkedOf (ms : List Json) : List Entry → Except Unit (List Str)
  | [] => Except.ok []
  | e :: rest =>
    match evalLowerName e.data with
    | Except.error u => Except.error u
    | Except.ok none => linkedOf ms rest
    | Except.ok (some nm) =>
      match someMention nm ms with
      | Except.error u => Except.error u
      | Except.ok hit =>
        match linkedOf ms rest with
        | Except.error u => Except.error u
        | Except.ok tail => Except.ok (if hit then e.id :: tail else tail)

/-- The same filter when the gated `mentionedPeople` value is not an
array: the first row evaluates its name (which may itself throw) and then
throws calling the absent `.some` method; only an empty row list escapes
without a callback running. -/
def linkedNonArray : List Entry → Except Unit (List Str)
  | [] => Except.ok []
  | e :: _ =>
    match evalLowerName e.data with
    | Except.error u => Except.error u
    | Except.ok _ => Except.error ()

/-- POST /api/capture: classify free text via the model (its reply is the
`modelReply` parameter), strip code fences, parse the reply as JSON,
compute the needs-review flag from the confidence (reading `confidence`
off a null result throws into the catch-all 500 first), link mentioned
people by case-insensitive substring match over the callers non-archived
people rows (a TypeError thrown by a link callback also lands in the
catch-all 500, with nothing written), and insert the entry (never
archived).  A reply that does not parse is a 500 with no entry written.
An ill-typed category or confidence is rejected by the text/numeric
columns of the insert, which surfaces as the save-failure 500. -/
def capturePOST (userId : Option Str) (store : Store) (text : Str)
    (modelReply : Str) (newId : Str) (createdAt : Nat) (nowIso : Str) : HResult :=
  match userId with
  | none => ⟨unauthorizedResp, store, false, false⟩
  | some uid =>
    if text.isEmpty then ⟨⟨400, errBody "Text is required".toList⟩, store, false, false⟩
    else
      match jsonParse (stripCodeFences modelReply) with
      | none => ⟨⟨500, errBody "Failed to parse AI response".toList⟩, store, false, true⟩
      | some Json.null => ⟨⟨500, errBody "Internal server error".toList⟩, store, false, true⟩
      | some result =>
        let needsReview := confBelowCutoff (jget result "confidence".toList)
        let mp := jget result "mentionedPeople".toList
        let insertWith : List Str → HResult := fun links =>
          match jget result "category".toList, jget result "confidence".toList with
          | some (Json.str cat), some (Json.num m e) =>
            let entry : Entry :=
              { id := newId
                user_id := uid
                category := cat
                data := (jget result "data".toList).getD Json.null
                confidence := (m, e)
                needs_review := needsReview
                archived := false
                linked_entries := links
                created_at := createdAt
                updated_at := nowIso }
            ⟨⟨200, Json.obj ([("entry".toList, entryToJson entry),
                              ("needsReview".toList, Json.bool needsReview)] ++
                             (match mp with
                              | some v => [("mentionedPeople".toList, v)]
                              | none => []))⟩,
             store ++ [entry], true, true⟩
          | _, _ => ⟨⟨500, errBody "Failed to save entry".toList⟩, store, true, true⟩
        if mentionGate mp then
          let people := store.filter
            (fun e => e.category == "people".toList && !e.archived && e.user_id == uid)
          match (match mp with
                 | some (Json.arr ms) => linkedOf ms people
                 | _ => linkedNonArray people) with
          | Except.error _ => ⟨⟨500, errBody "Internal server error".toList⟩, store, true, true⟩
          | Except.ok links => insertWith links
        else insertWith []

/-! ### Digest handler (the summary route) -/

/-- The open-items query of the digest route: the callers most recent
non-archived rows of one category, newest first. -/
def openByCategory (store : Store) (uid : Str) (cat : Str) : List Entry :=
  sortByCreatedDesc
    (store.filter (fun e => e.category == cat && !e.archived && e.user_id == uid))

/-- GET of the digest route: an unauthenticated caller is answered with an
empty bullet list (a success response, before any store access); with zero
open tasks and zero open projects the handler returns the empty list
without calling the model; otherwise the model reply is fence-stripped and
parsed, a parse failure yielding the empty list. -/
def digestGET (userId : Option Str) (store : Store) (modelReply : Str) : HResult :=
  match userId with
  | none => ⟨⟨200, Json.obj [("bullets".toList, Json.arr [])]⟩, store, false, false⟩
  | some uid =>
    let tasks := (openByCategory store uid "tasks".toList).take 10
    let projects := (openByCategory store uid "projects".toList).take 5
    if tasks.isEmpty && projects.isEmpty then
      ⟨⟨200, Json.obj [("bullets".toList, Json.arr [])]⟩, store, true, false⟩
    else
      let bullets := (jsonParse (stripCodeFences modelReply)).getD (Json.arr [])
      ⟨⟨200, Json.obj [("bullets".toList, bullets)]⟩, store, true, true⟩

/-! ### Chat handlers -/

/-- Does `action.action === "update"` hold for the parsed action? -/
def isUpdateAction (action : Json) : Bool :=
  match jget action "action".toList with
  | some (Json.str s) => s == "update".toList
  | _ => false

/-- Property assignment `o.k = v` on a JSON value (every handler use is
guarded by a successful property read, so the value is an object). -/
def jsetField (j : Json) (k : Str) (v : Json) : Json :=
  match j with
  | Json.obj fs => Json.obj (objInsert fs k v)
  | _ => j

/-- Property deletion `delete o.k` on a JSON value. -/
def jdelField (j : Json) (k : Str) : Json :=
  match j with
  | Json.obj fs => Json.obj (objDelete fs k)
  | _ => j

/-- Is the optional value a string? -/
def isStrOpt (o : Option Json) : Bool :=
  match o with
  | some (Json.str _) => true
  | _ => false

/-- Response body of the task chat route. -/
def taskChatBody (response : Str) (updated : Bool) : Json :=
  Json.obj [("response".toList, Json.str response),
            ("taskUpdated".toList, Json.bool updated)]

/-- POST /api/task/[id]/chat.  The distance lookup and the other-tasks
query only shape the model prompt, which is summarised by the
`modelReply` parameter; they have no effect on the response logic.  The
reply is scanned for the action pattern (leftmost match, first alternative
preferred); a parse failure of the matched text is caught and leaves the
row and the full reply untouched.  On an update action the handler applies
the add-to-notes append rule, runs a deadline update through the
natural-language date resolver (keeping the literal text when the
resolver yields null, and aborting to the catch branch when the deadline
value is a truthy non-string, whose `toLowerCase` throws), shallow-merges
the updates over the stored data stamping `updated_at`, and strips the
matched text from the reply. -/
def taskChatPOST (userId : Option Str) (store : Store) (taskId : Str)
    (message : Str) (modelReply : Str) (jsDateParse : Str → Option Int)
    (nowMs : Int) (nowIso : Str) : HResult :=
  match userId with
  | none => ⟨unauthorizedResp, store, false, false⟩
  | some uid =>
    match store.filter (rowMatch taskId uid) with
    | [task] =>
      if task.category != "tasks".toList then
        ⟨⟨400, errBody "Entry is not a task".toList⟩, store, true, false⟩
      else
        match scanSplit taskActionPat modelReply with
        | none => ⟨⟨200, taskChatBody modelReply false⟩, store, true, true⟩
        | some (_, m, _) =>
          match jsonParse m with
          | none => ⟨⟨200, taskChatBody modelReply false⟩, store, true, true⟩
          | some action =>
            if isUpdateAction action && otruthy (jget action "updates".toList) then
              let updates := (jget action "updates".toList).getD Json.null
              let notesCond := otruthy (jget updates "notes".toList) &&
                otruthy (jget task.data "notes".toList) &&
                containsStr (toLowerStr message) "add to notes".toList
              let updates1 :=
                if notesCond then
                  jsetField updates "notes".toList
                    (Json.str (jsToStr ((jget task.data "notes".toList).getD Json.null) ++
                               '\n' :: jsToStr ((jget updates "notes".toList).getD Json.null)))
                else updates
              let dl := jget updates1 "deadline".toList
              if otruthy dl && !isStrOpt dl then
                ⟨⟨200, taskChatBody modelReply false⟩, store, true, true⟩
              else
                let updates2 :=
                  match dl with
                  | some (Json.str d) =>
                    if !d.isEmpty then
                      match parseNaturalDate jsDateParse nowMs d with
                      | some iso => jsetField updates1 "deadline".toList (Json.str iso)
                      | none => updates1
                    else updates1
                  | _ => updates1
                let updatedData := Json.obj (jsMerge (spreadFields task.data) (spreadFields updates2))
                let store2 := store.map (fun e =>
                  if rowMatch taskId uid e then { e with data := updatedData, updated_at := nowIso } else e)
                ⟨⟨200, taskChatBody (trimStr (replaceFirst modelReply m)) true⟩, store2, true, true⟩
            else
              ⟨⟨200, taskChatBody (trimStr (replaceFirst modelReply m)) false⟩, store, true, true⟩
    | _ => ⟨⟨404, errBody "Task not found".toList⟩, store, true, false⟩

/-- Is a status value in the allowed set of the project payload?  The
membership test uses strict equality, so only these three strings pass. -/
def statusAllowed (j : Json) : Bool :=
  match j with
  | Json.str s => s == "active".toList || s == "on-hold".toList || s == "completed".toList
  | _ => false

/-- Response body of the project chat route (an absent `updatedFields` is
omitted from the serialised body, like `undefined`). -/
def projChatBody (response : Str) (updated : Bool) (uf : Option Json) : Json :=
  Json.obj ([("response".toList, Json.str response),
             ("projectUpdated".toList, Json.bool updated)] ++
            (match uf with
             | some u => [("updatedFields".toList, u)]
             | none => []))

/-- POST /api/projects/[id]/chat.  The reply is scanned with the three
ordered pattern attempts (each searched over the whole reply before the
next); the candidate text is cleaned of code fences and parsed, a failure
leaving the row and the full reply untouched.  On an update action a
truthy status value outside the allowed set is deleted from the updates
before the shallow merge; the matched text is stripped from the reply. -/
def projectChatPOST (userId : Option Str) (store : Store) (projectId : Str)
    (modelReply : Str) (nowIso : Str) : HResult :=
  match userId with
  | none => ⟨unauthorizedResp, store, false, false⟩
  | some uid =>
    match store.filter (rowMatch projectId uid) with
    | [project] =>
      if project.category != "projects".toList then
        ⟨⟨400, errBody "Entry is not a project".toList⟩, store, true, false⟩
      else
        match projFind modelReply with
        | none => ⟨⟨200, projChatBody modelReply false none⟩, store, true, true⟩
        | some (_, whole, cand, _) =>
          match jsonParse (cleanJson cand) with
          | none => ⟨⟨200, projChatBody modelReply false none⟩, store, true, true⟩
          | some action =>
            if isUpdateAction action && otruthy (jget action "updates".toList) then
              let updates := (jget action "updates".toList).getD Json.null
              let updates1 :=
                if otruthy (jget updates "status".toList) &&
                   !statusAllowed ((jget updates "status".toList).getD Json.null) then
                  jdelField updates "status".toList
                else updates
              let updatedData := Json.obj (jsMerge (spreadFields project.data) (spreadFields updates1))
              let store2 := store.map (fun e =>
                if rowMatch projectId uid e then { e with data := updatedData, updated_at := nowIso } else e)
              ⟨⟨200, projChatBody (trimStr (replaceFirst modelReply whole)) true (some updates1)⟩,
               store2, true, true⟩
            else
              ⟨⟨200, projChatBody (trimStr (replaceFirst modelReply whole)) false none⟩,
               store, true, true⟩
    | _ => ⟨⟨404, errBody "Project not found".toList⟩, store, true, false⟩

/-! ### General lemmas about the embedding -/

/-- The decimal strict order agrees with the rational order of the
denoted values. -/
theorem decLt_iff (m1 e1 m2 e2 : Int) :
    decLt m1 e1 m2 e2 = true ↔ (m1 : ℚ) * 10 ^ e1 < (m2 : ℚ) * 10 ^ e2 := by
  unfold decLt
  split
  · rename_i h
    have h10 : (0:ℚ) < 10 ^ e1 := zpow_pos (by norm_num) _
    rw [decide_eq_true_iff]
    rw [show ((10:ℚ) ^ e2) = 10 ^ (e2 - e1) * 10 ^ e1 by
      rw [← zpow_add₀ (by norm_num : (10:ℚ) ≠ 0)]; ring_nf]
    rw [← mul_assoc, mul_lt_mul_right h10]
    rw [show ((10:ℚ) ^ (e2 - e1)) = ((10 ^ (e2 - e1).toNat : Int) : ℚ) by
      push_cast
      rw [← zpow_natCast (10:ℚ) (e2 - e1).toNat, Int.toNat_of_nonneg (by omega)]]
    exact_mod_cast Iff.rfl
  · rename_i h
    have h10 : (0:ℚ) < 10 ^ e2 := zpow_pos (by norm_num) _
    rw [decide_eq_true_iff]
    rw [show ((10:ℚ) ^ e1) = 10 ^ (e1 - e2) * 10 ^ e2 by
      rw [← zpow_add₀ (by norm_num : (10:ℚ) ≠ 0)]; ring_nf]
    rw [← mul_assoc, mul_lt_mul_right h10]
    rw [show ((10:ℚ) ^ (e1 - e2)) = ((10 ^ (e1 - e2).toNat : Int) : ℚ) by
      push_cast
      rw [← zpow_natCast (10:ℚ) (e1 - e2).toNat, Int.toNat_of_nonneg (by omega)]]
    exact_mod_cast Iff.rfl

/-- Insertion into the ordering model preserves membership. -/
theorem mem_insertByCreated (a e : Entry) (l : List Entry) :
    a ∈ insertByCreated e l ↔ a = e ∨ a ∈ l := by
  induction l with
  | nil => simp [insertByCreated]
  | cons x xs ih =>
    by_cases h : x.created_at ≤ e.created_at
    · simp [insertByCreated, h]
    · simp [insertByCreated, h, ih]
      tauto

/-- The ordering model preserves membership. -/
theorem mem_sortByCreatedDesc (a : Entry) (l : List Entry) :
    a ∈ sortByCreatedDesc l ↔ a ∈ l := by
  induction l with
  | nil => simp [sortByCreatedDesc]
  | cons x xs ih => simp [sortByCreatedDesc, mem_insertByCreated, ih]

/-- Membership in the default (non-archived) listing query. -/
theorem mem_entriesQuery_default (store : Store) (uid : Str) (e : Entry) :
    e ∈ entriesQuery store uid none none none ↔
      e ∈ store ∧ e.user_id = uid ∧ e.archived = false := by
  simp [entriesQuery, mem_sortByCreatedDesc, List.mem_filter, and_assoc, Bool.not_eq_true']
  tauto

/-- Membership in the archived-only listing query. -/
theorem mem_entriesQuery_only (store : Store) (uid : Str) (e : Entry) :
    e ∈ entriesQuery store uid none (some "only".toList) none ↔
      e ∈ store ∧ e.user_id = uid ∧ e.archived = true := by
  simp [entriesQuery, mem_sortByCreatedDesc, List.mem_filter, and_assoc]
  tauto

/-! ### C10: creation never produces an archived entry -/

/-- C10: for every create-one request body the inserted row has a false
archived flag, even when the body supplies `archived = true`; the create
handler appends exactly that row (and never an archived one). -/
theorem C10_create_never_archived (uid : Str) (store : Store) (b : CreateBody)
    (newId : Str) (createdAt : Nat) (nowIso : Str) :
    (entriesPOST (some uid) store b newId createdAt nowIso).store =
      store ++ [manualEntry uid b newId createdAt nowIso] ∧
    (manualEntry uid b newId createdAt nowIso).archived = false ∧
    (manualEntry uid { b with archived := some true } newId createdAt nowIso).archived = false := by
  exact ⟨rfl, rfl, rfl⟩

/-! ### C9: unauthenticated callers -/

/-- C9 (amended): every embedded endpoint except the digest rejects a
request with no session with the 401 unauthorized response, before any
store access and without changing the store; the digest endpoint instead
answers such a request with a successful empty-bullet-list response, also
before any store access and without an outbound model call. -/
theorem C9_unauthenticated_behaviour (store : Store) :
    (∀ category archivedParam needsReviewParam,
       entriesGET none store category archivedParam needsReviewParam =
         ⟨unauthorizedResp, store, false, false⟩) ∧
    (∀ b newId createdAt nowIso,
       entriesPOST none store b newId createdAt nowIso = ⟨unauthorizedResp, store, false, false⟩) ∧
    (∀ id, entryGET none store id = ⟨unauthorizedResp, store, false, false⟩) ∧
    (∀ id b nowIso, entryPATCH none store id b nowIso = ⟨unauthorizedResp, store, false, false⟩) ∧
    (∀ id, entryDELETE none store id = ⟨unauthorizedResp, store, false, false⟩) ∧
    (∀ text reply newId createdAt nowIso,
       capturePOST none store text reply newId createdAt nowIso =
         ⟨unauthorizedResp, store, false, false⟩) ∧
    (∀ taskId message reply jd nowMs nowIso,
       taskChatPOST none store taskId message reply jd nowMs nowIso =
         ⟨unauthorizedResp, store, false, false⟩) ∧
    (∀ projectId reply nowIso,
       projectChatPOST none store projectId reply nowIso =
         ⟨unauthorizedResp, store, false, false⟩) ∧
    (∀ reply,
       digestGET none store reply =
         ⟨⟨200, Json.obj [("bullets".toList, Json.arr [])]⟩, store, false, false⟩) := by
  refine ⟨fun _ _ _ => rfl, fun _ _ _ _ => rfl, fun _ => rfl, fun _ _ _ => rfl, fun _ => rfl,
    fun _ _ _ _ _ => rfl, fun _ _ _ _ _ _ => rfl, fun _ _ _ => rfl, fun _ => rfl⟩

/-- C9 counterexample to the claim as stated: the digest endpoint answers
an unauthenticated request with a 200 success response carrying an empty
bullet list, not with an unauthenticated error response. -/
theorem C9_digest_no_unauthenticated_error :
    (digestGET none [] []).resp.status = 200 ∧
    (digestGET none [] []).resp.body = Json.obj [("bullets".toList, Json.arr [])] ∧
    (digestGET none [] []).resp.status ≠ unauthorizedResp.status := by
  exact ⟨rfl, rfl, by decide⟩

/-! ### C3: the two archived listings partition the entries of a user -/

/-- C3: the default listing contains no archived entry, the archived-only
listing contains no non-archived entry, and every entry of the user
belongs to exactly one of the two listings; the list handler serialises
exactly the query rows. -/
theorem C3_archived_partition (store : Store) (uid : Str) :
    ((entriesGET (some uid) store none none none).resp.body =
       Json.arr ((entriesQuery store uid none none none).map entryToJson)) ∧
    ((entriesGET (some uid) store none (some "only".toList) none).resp.body =
       Json.arr ((entriesQuery store uid none (some "only".toList) none).map entryToJson)) ∧
    (∀ e ∈ entriesQuery store uid none none none, e.archived = false) ∧
    (∀ e ∈ entriesQuery store uid none (some "only".toList) none, e.archived = true) ∧
    (∀ e ∈ store, e.user_id = uid →
       (e ∈ entriesQuery store uid none none none ∧
          e ∉ entriesQuery store uid none (some "only".toList) none) ∨
       (e ∈ entriesQuery store uid none (some "only".toList) none ∧
          e ∉ entriesQuery store uid none none none)) := by
  refine ⟨rfl, rfl, ?_, ?_, ?_⟩
  · intro e he
    exact ((mem_entriesQuery_default store uid e).1 he).2.2
  · intro e he
    exact ((mem_entriesQuery_only store uid e).1 he).2.2
  · intro e he hu
    by_cases ha : e.archived
    · refine Or.inr ⟨(mem_entriesQuery_only store uid e).2 ⟨he, hu, ha⟩, fun hmem => ?_⟩
      have := ((mem_entriesQuery_default store uid e).1 hmem).2.2
      simp [ha] at this
    · refine Or.inl ⟨(mem_entriesQuery_default store uid e).2 ⟨he, hu, by simpa using ha⟩,
        fun hmem => ?_⟩
      have := ((mem_entriesQuery_only store uid e).1 hmem).2.2
      simp [this] at ha

/-! ### C8: empty digest without a model call -/

/-- C8: for a caller with zero non-archived tasks and zero non-archived
projects the digest returns the empty bullet list and never reaches the
outbound model call. -/
theorem C8_empty_digest_no_model_call (uid : Str) (store : Store) (reply : Str)
    (htasks : store.filter
        (fun e => e.category == "tasks".toList && !e.archived && e.user_id == uid) = [])
    (hprojects : store.filter
        (fun e => e.category == "projects".toList && !e.archived && e.user_id == uid) = []) :
    digestGET (some uid) store reply =
      ⟨⟨200, Json.obj [("bullets".toList, Json.arr [])]⟩, store, true, false⟩ := by
  have h1 : openByCategory store uid "tasks".toList = [] := by
    unfold openByCategory
    rw [htasks]
    rfl
  have h2 : openByCategory store uid "projects".toList = [] := by
    unfold openByCategory
    rw [hprojects]
    rfl
  simp only [digestGET, h1, h2]
  rfl

/-- C8 witness: a store holding only an archived task and a foreign
project satisfies the hypotheses, and the digest is the empty list with
no model call. -/
theorem C8_empty_digest_witness :
    ([⟨"t9".toList, "u1".toList, "tasks".toList, Json.null, (1, 0), false, true, [], 3,
        []⟩,
      ⟨"p9".toList, "u2".toList, "projects".toList, Json.null, (1, 0), false, false, [], 4,
        []⟩] : Store).filter
        (fun e => e.category == "tasks".toList && !e.archived && e.user_id == "u1".toList) = [] ∧
    digestGET (some "u1".toList)
      [⟨"t9".toList, "u1".toList, "tasks".toList, Json.null, (1, 0), false, true, [], 3, []⟩,
       ⟨"p9".toList, "u2".toList, "projects".toList, Json.null, (1, 0), false, false, [], 4, []⟩]
      "whatever".toList =
      ⟨⟨200, Json.obj [("bullets".toList, Json.arr [])]⟩,
       [⟨"t9".toList, "u1".toList, "tasks".toList, Json.null, (1, 0), false, true, [], 3, []⟩,
        ⟨"p9".toList, "u2".toList, "projects".toList, Json.null, (1, 0), false, false, [], 4, []⟩],
       true, false⟩ := by
  exact ⟨rfl, C8_empty_digest_no_model_call _ _ _ rfl rfl⟩

/-! ### C1: cross-tenant access behaves like a missing entry -/

/-- C1 (amended): when no row has both the requested id and the caller as
owner (in particular when the entry belongs to a different user, and
likewise when it does not exist), read-one answers the not-found response,
partial-update answers the generic update-failure response, and delete
answers the success acknowledgment; the store is unchanged in all three
cases.  The three responses are constants, so a foreign entry and a
nonexistent one are indistinguishable per operation; but only read-one
produces a not-found outcome. -/
theorem C1_cross_tenant_behaviour (uid eid : Str) (store : Store)
    (h : ∀ e ∈ store, ¬(e.id = eid ∧ e.user_id = uid)) :
    entryGET (some uid) store eid =
      ⟨⟨404, errBody "Entry not found".toList⟩, store, true, false⟩ ∧
    (∀ b nowIso, entryPATCH (some uid) store eid b nowIso =
      ⟨⟨500, errBody "Failed to update entry".toList⟩, store, true, false⟩) ∧
    entryDELETE (some uid) store eid =
      ⟨⟨200, Json.obj [("success".toList, Json.bool true)]⟩, store, true, false⟩ := by
  have hb : ∀ e ∈ store, rowMatch eid uid e = false := by
    intro e he
    by_cases h1 : e.id = eid
    · by_cases h2 : e.user_id = uid
      · exact absurd ⟨h1, h2⟩ (h e he)
      · simp [rowMatch, h2]
    · simp [rowMatch, h1]
  have hfil : store.filter (rowMatch eid uid) = [] :=
    List.filter_eq_nil_iff.mpr (fun a ha => by simp [hb a ha])
  have hmap : ∀ (f : Entry → Entry),
      store.map (fun e => if rowMatch eid uid e then f e else e) = store := by
    intro f
    have hpt : ∀ e ∈ store, (fun e => if rowMatch eid uid e then f e else e) e = id e :=
      fun e he => by simp [hb e he]
    rw [List.map_congr_left hpt, List.map_id]
  have hfil2 : store.filter (fun e => !rowMatch eid uid e) = store :=
    List.filter_eq_self.mpr (fun a ha => by simp [hb a ha])
  refine ⟨?_, ?_, ?_⟩
  · simp only [entryGET, hfil]
  · intro b nowIso
    simp only [entryPATCH, hfil, hmap (applyPatch b nowIso)]
    rfl
  · simp only [entryDELETE, hfil2]

/-- Concrete row owned by the user alice, used by the C1 instances. -/
def aliceEntry : Entry :=
  ⟨"e1".toList, "alice".toList, "tasks".toList, Json.null, (1, 0), false, false, [], 1, []⟩

/-- C1 counterexample to the claim as stated: acting on another users
entry does not produce a not-found outcome for delete (success, 200) or
for partial-update (generic failure, 500); only read-one answers 404. -/
theorem C1_not_found_only_for_read :
    (entryDELETE (some "bob".toList) [aliceEntry] "e1".toList).resp.status = 200 ∧
    (entryPATCH (some "bob".toList) [aliceEntry] "e1".toList {} "now".toList).resp.status = 500 ∧
    (entryGET (some "bob".toList) [aliceEntry] "e1".toList).resp.status = 404 ∧
    (200 : Nat) ≠ 404 ∧ (500 : Nat) ≠ 404 :=
  ⟨rfl, rfl, rfl, by decide, by decide⟩

/-- C1 witness: the amended theorem applied to the caller bob and a store
holding only an entry of alice. -/
theorem C1_cross_tenant_witness :
    entryGET (some "bob".toList) [aliceEntry] "e1".toList =
      ⟨⟨404, errBody "Entry not found".toList⟩, [aliceEntry], true, false⟩ ∧
    (∀ b nowIso, entryPATCH (some "bob".toList) [aliceEntry] "e1".toList b nowIso =
      ⟨⟨500, errBody "Failed to update entry".toList⟩, [aliceEntry], true, false⟩) ∧
    entryDELETE (some "bob".toList) [aliceEntry] "e1".toList =
      ⟨⟨200, Json.obj [("success".toList, Json.bool true)]⟩, [aliceEntry], true, false⟩ :=
  C1_cross_tenant_behaviour "bob".toList "e1".toList [aliceEntry] (by decide)

/-! ### C2: needs-review is confidence below 0.6; manual defaults -/

/-- Whenever the capture handler has appended a row, that rows
needs-review flag is the below-cutoff comparison of the parsed confidence
(whatever branch of the people-linking logic was taken). -/
theorem capture_inserted_needs_review (uid : Str) (store : Store) (text reply newId : Str)
    (createdAt : Nat) (nowIso : Str) (result : Json) (en : Entry)
    (hparse : jsonParse (stripCodeFences reply) = some result)
    (hstore : (capturePOST (some uid) store text reply newId createdAt nowIso).store =
      store ++ [en]) :
    en.needs_review = confBelowCutoff (jget result "confidence".toList) := by
  have hlen : ∀ (x : Entry), ¬(store = store ++ [x]) := by
    intro x hx
    have := congrArg List.length hx
    simp at this
  cases htE : text.isEmpty with
  | true =>
    exfalso
    simp only [capturePOST, htE, if_true] at hstore
    exact hlen en hstore
  | false =>
    cases result
    all_goals simp only [capturePOST, htE, hparse] at hstore
    all_goals try (simp only [Bool.false_eq_true, if_false] at hstore)
    all_goals try (split at hstore)
    all_goals try (split at hstore)
    all_goals try (split at hstore)
    all_goals try (split at hstore)
    all_goals first
    | exact absurd hstore (hlen en)
    | (have h3 := List.append_cancel_left hstore
       injection h3 with h4 h5
       subst h4
       rfl)

/-- C2: an entry created by the classify-and-create operation from a
parsed result with numeric confidence c has needs-review true exactly when
c is below 0.6 as a rational number; and a manual create request omitting
confidence and needs-review yields confidence 1.0 and needs-review
false. -/
theorem C2_confidence_needs_review :
    (∀ (uid : Str) (store : Store) (text reply newId : Str) (createdAt : Nat) (nowIso : Str)
       (result : Json) (m e : Int) (en : Entry),
       jsonParse (stripCodeFences reply) = some result →
       jget result "confidence".toList = some (Json.num m e) →
       (capturePOST (some uid) store text reply newId createdAt nowIso).store = store ++ [en] →
       (en.needs_review = true ↔ (m : ℚ) * 10 ^ e < 3 / 5)) ∧
    (∀ (uid : Str) (store : Store) (cat : Str) (d : Json) (newId : Str) (createdAt : Nat)
       (nowIso : Str),
       (manualEntry uid { category := cat, data := d } newId createdAt nowIso).confidence = (1, 0) ∧
       (manualEntry uid { category := cat, data := d } newId createdAt nowIso).needs_review = false ∧
       (entriesPOST (some uid) store { category := cat, data := d } newId createdAt nowIso).store =
         store ++ [manualEntry uid { category := cat, data := d } newId createdAt nowIso]) := by
  constructor
  · intro uid store text reply newId createdAt nowIso result m e en hparse hconf hstore
    have h1 := capture_inserted_needs_review uid store text reply newId createdAt nowIso result en
      hparse hstore
    rw [h1, hconf]
    show decLt m e 6 (-1) = true ↔ _
    rw [decLt_iff]
    rw [show (((6 : Int) : ℚ) * 10 ^ (-1 : Int)) = 3 / 5 by
      push_cast [zpow_neg, zpow_one]
      norm_num]
  · intro uid store cat d newId createdAt nowIso
    exact ⟨rfl, rfl, rfl⟩

/-- Classifier reply used by the C2 witness: its mentioned-people array
holds a non-string, which the link loop never evaluates when no people row
carries a string name. -/
def c2reply : Str :=
  ("\x7b\"category\":\"ideas\",\"confidence\":0.45,\"data\":\x7b\x7d," ++
   "\"mentionedPeople\":[42]\x7d").toList

/-- Parse of the C2 witness reply. -/
def c2result : Json :=
  Json.obj [("category".toList, Json.str "ideas".toList),
            ("confidence".toList, Json.num 45 (-2)),
            ("data".toList, Json.obj []),
            ("mentionedPeople".toList, Json.arr [Json.num 42 0])]

/-- A nameless people row of the C2 witness caller: its payload has no
name field, so the optional chain short-circuits the link callback before
any mentioned value is evaluated. -/
def c2person : Entry :=
  { id := "p1".toList
    user_id := "u1".toList
    category := "people".toList
    data := Json.obj []
    confidence := (1, 0)
    needs_review := false
    archived := false
    linked_entries := []
    created_at := 1
    updated_at := "t0".toList }

/-- Row the capture handler inserts for the C2 witness reply. -/
def c2entry : Entry :=
  { id := "n1".toList
    user_id := "u1".toList
    category := "ideas".toList
    data := Json.obj []
    confidence := (45, -2)
    needs_review := true
    archived := false
    linked_entries := []
    created_at := 9
    updated_at := "now".toList }

/-- C2 witness: a concrete classification with confidence 0.45 and a
non-string mentioned value still creates a needs-review entry past the
nameless people row (the link loop never evaluates the non-string), and a
concrete manual create without confidence gets confidence 1.0 and no
review flag. -/
theorem C2_confidence_witness :
    jsonParse (stripCodeFences c2reply) = some c2result ∧
    (capturePOST (some "u1".toList) [c2person] "hi".toList c2reply "n1".toList 9
        "now".toList).store = [c2person] ++ [c2entry] ∧
    (c2entry.needs_review = true ↔ (45 : ℚ) * 10 ^ (-2 : Int) < 3 / 5) ∧
    (manualEntry "u1".toList { category := "t".toList, data := Json.null } "n2".toList 1
        "now".toList).confidence = (1, 0) ∧
    (manualEntry "u1".toList { category := "t".toList, data := Json.null } "n2".toList 1
        "now".toList).needs_review = false :=
  ⟨rfl, rfl,
   C2_confidence_needs_review.1 "u1".toList [c2person] "hi".toList c2reply "n1".toList 9
     "now".toList c2result 45 (-2) c2entry rfl rfl rfl,
   (C2_confidence_needs_review.2 "u1".toList [] "t".toList Json.null "n2".toList 1 "now".toList).1,
   (C2_confidence_needs_review.2 "u1".toList [] "t".toList Json.null "n2".toList 1
     "now".toList).2.1⟩

/-! ### C5: a chat reply whose action block fails to parse changes nothing -/

/-- C5: when the matched JSON candidate of a chat reply fails to parse,
the task-chat and project-chat handlers leave the store untouched and
return the full reply, with the block still present (the strip step is
never reached). -/
theorem C5_parse_failure_no_update :
    (∀ (uid : Str) (store : Store) (taskId message reply : Str) (jd : Str → Option Int)
       (nowMs : Int) (nowIso : Str) (task : Entry) (pre m post : Str),
       store.filter (rowMatch taskId uid) = [task] →
       task.category = "tasks".toList →
       scanSplit taskActionPat reply = some (pre, m, post) →
       jsonParse m = none →
       taskChatPOST (some uid) store taskId message reply jd nowMs nowIso =
         ⟨⟨200, taskChatBody reply false⟩, store, true, true⟩) ∧
    (∀ (uid : Str) (store : Store) (projectId reply : Str) (nowIso : Str) (project : Entry)
       (pre whole cand post : Str),
       store.filter (rowMatch projectId uid) = [project] →
       project.category = "projects".toList →
       projFind reply = some (pre, whole, cand, post) →
       jsonParse (cleanJson cand) = none →
       projectChatPOST (some uid) store projectId reply nowIso =
         ⟨⟨200, projChatBody reply false none⟩, store, true, true⟩) := by
  constructor
  · intro uid store taskId message reply jd nowMs nowIso task pre m post hfil hcat hscan hjson
    simp only [taskChatPOST, hfil, hscan, hjson, hcat]
    simp
  · intro uid store projectId reply nowIso project pre whole cand post hfil hcat hscan hjson
    simp only [projectChatPOST, hfil, hscan, hjson, hcat]
    simp

/-- Chat reply with an action block whose inner content is not valid JSON. -/
def c5badReply : Str :=
  "Hmm \x7b\"action\": \"update\", \"updates\": \x7bbad\x7d\x7d end".toList

/-- The matched block inside `c5badReply`. -/
def c5block : Str :=
  "\x7b\"action\": \"update\", \"updates\": \x7bbad\x7d\x7d".toList

/-- Task row used by the C5 witness. -/
def c5task : Entry :=
  ⟨"t1".toList, "u1".toList, "tasks".toList, Json.null, (1, 0), false, false, [], 1, []⟩

/-- Project row used by the C5 witness. -/
def c5proj : Entry :=
  ⟨"p1".toList, "u1".toList, "projects".toList, Json.null, (1, 0), false, false, [], 1, []⟩

/-- C5 witness: on a concrete unparsable action block both chat handlers
keep the row unchanged and return the full reply. -/
theorem C5_parse_failure_witness :
    taskChatPOST (some "u1".toList) [c5task] "t1".toList "msg".toList c5badReply
        (fun _ => none) 0 "z".toList =
      ⟨⟨200, taskChatBody c5badReply false⟩, [c5task], true, true⟩ ∧
    projectChatPOST (some "u1".toList) [c5proj] "p1".toList c5badReply "z".toList =
      ⟨⟨200, projChatBody c5badReply false none⟩, [c5proj], true, true⟩ :=
  ⟨C5_parse_failure_no_update.1 "u1".toList [c5task] "t1".toList "msg".toList c5badReply
     (fun _ => none) 0 "z".toList c5task "Hmm ".toList c5block " end".toList rfl rfl rfl rfl,
   C5_parse_failure_no_update.2 "u1".toList [c5proj] "p1".toList c5badReply "z".toList c5proj
     "Hmm ".toList c5block c5block " end".toList rfl rfl rfl rfl⟩


/-! ### C6: project-chat status validation -/

/-- Lookup after a property assignment. -/
theorem fieldsGet_objInsert (fs : List (Str × Json)) (k : Str) (v : Json) (k2 : Str) :
    fieldsGet (objInsert fs k v) k2 = if k2 = k then some v else fieldsGet fs k2 := by
  induction fs with
  | nil =>
    by_cases hk : k2 = k
    · simp [objInsert, fieldsGet, hk]
    · simp [objInsert, fieldsGet, hk, Ne.symm hk]
  | cons p t ih =>
    by_cases h1 : p.1 = k
    · by_cases hk : k2 = k
      · simp [objInsert, fieldsGet, h1, hk]
      · have hp : ¬(p.1 = k2) := fun hh => hk (hh ▸ h1)
        have hk2 : ¬(k = k2) := fun hh => hk hh.symm
        simp [objInsert, fieldsGet, h1, hk, hp, hk2]
    · by_cases h2 : p.1 = k2
      · have hk : ¬(k2 = k) := fun hh => h1 (h2.trans hh)
        simp [objInsert, fieldsGet, h1, h2, hk]
      · simp [objInsert, fieldsGet, h1, h2, ih]

theorem fieldsGet_eq_none_of_not_mem (fs : List (Str × Json)) (k : Str)
    (h : k ∉ fs.map Prod.fst) : fieldsGet fs k = none := by
  induction fs with
  | nil => rfl
  | cons p t ih =>
    simp only [List.map_cons, List.mem_cons] at h
    push_neg at h
    have h1 : ¬(p.1 = k) := Ne.symm h.1
    simp [fieldsGet, h1, ih h.2]

theorem fieldsGet_jsMerge (a b : List (Str × Json)) (k : Str)
    (hnd : (b.map Prod.fst).Nodup) :
    fieldsGet (jsMerge a b) k =
      match fieldsGet b k with
      | some v => some v
      | none => fieldsGet a k := by
  induction b generalizing a with
  | nil => rfl
  | cons p t ih =>
    simp only [List.map_cons, List.nodup_cons] at hnd
    have step : jsMerge a (p :: t) = jsMerge (objInsert a p.1 p.2) t := rfl
    rw [step, ih (objInsert a p.1 p.2) hnd.2]
    by_cases h : p.1 = k
    · have hnone : fieldsGet t k = none :=
        fieldsGet_eq_none_of_not_mem t k (h ▸ hnd.1)
      simp [hnone, fieldsGet, h, fieldsGet_objInsert]
    · cases hget : fieldsGet t k with
      | none =>
        have hne : ¬(k = p.1) := fun hh => h hh.symm
        simp [fieldsGet, h, hget, fieldsGet_objInsert, hne]
      | some v => simp [fieldsGet, h, hget]

theorem fieldsGet_objDelete_self (fs : List (Str × Json)) (k : Str)
    (hnd : (fs.map Prod.fst).Nodup) : fieldsGet (objDelete fs k) k = none := by
  induction fs with
  | nil => rfl
  | cons p t ih =>
    simp only [List.map_cons, List.nodup_cons] at hnd
    by_cases h : p.1 = k
    · simp only [objDelete, h, if_true]
      exact fieldsGet_eq_none_of_not_mem t k (h ▸ hnd.1)
    · simp [objDelete, h, fieldsGet, ih hnd.2]

theorem fieldsGet_objDelete_ne (fs : List (Str × Json)) (k k2 : Str) (h : k2 ≠ k) :
    fieldsGet (objDelete fs k) k2 = fieldsGet fs k2 := by
  induction fs with
  | nil => rfl
  | cons p t ih =>
    by_cases h1 : p.1 = k
    · have hp : ¬(p.1 = k2) := fun hh => h ((hh.symm.trans h1))
      have hk2 : ¬(k = k2) := fun hh => h hh.symm
      simp [objDelete, h1, fieldsGet, hp, hk2]
    · by_cases h2 : p.1 = k2
      · simp [objDelete, h1, fieldsGet, h2, h]
      · simp [objDelete, h1, fieldsGet, h2, ih]

theorem keys_objDelete_subset (fs : List (Str × Json)) (k : Str) :
    (objDelete fs k).map Prod.fst ⊆ fs.map Prod.fst := by
  induction fs with
  | nil => simp [objDelete]
  | cons p t ih =>
    by_cases h : p.1 = k
    · simp only [objDelete, h, if_true, List.map_cons]
      exact fun x hx => List.mem_cons_of_mem _ hx
    · simp only [objDelete, h, if_false, List.map_cons]
      intro x hx
      rcases List.mem_cons.1 hx with hx | hx
      · exact hx ▸ List.mem_cons_self _ _
      · exact List.mem_cons_of_mem _ (ih hx)

theorem nodup_objDelete (fs : List (Str × Json)) (k : Str)
    (hnd : (fs.map Prod.fst).Nodup) : ((objDelete fs k).map Prod.fst).Nodup := by
  induction fs with
  | nil => simp [objDelete]
  | cons p t ih =>
    simp only [List.map_cons, List.nodup_cons] at hnd
    by_cases h : p.1 = k
    · simpa [objDelete, h] using hnd.2
    · simp only [objDelete, h, if_false, List.map_cons, List.nodup_cons]
      exact ⟨fun hmem => hnd.1 (keys_objDelete_subset t k hmem), ih hnd.2⟩

set_option synthInstance.maxHeartbeats 1000000 in
/-- C6 (amended): a project-chat update whose updates map carries a truthy
status value outside the allowed set has the status key deleted before the
merge, every other field of the updates map still applying; a falsy status
value (for example the empty string) fails the truthiness guard and is
merged unvalidated, which is the one departure from the claim. -/
theorem C6_status_validation (uid projectId : Str) (store : Store) (reply nowIso : Str)
    (project : Entry) (pre whole cand post : Str) (action : Json)
    (us : List (Str × Json)) (sv : Json)
    (hfil : store.filter (rowMatch projectId uid) = [project])
    (hcat : project.category = "projects".toList)
    (hscan : projFind reply = some (pre, whole, cand, post))
    (hjson : jsonParse (cleanJson cand) = some action)
    (hact : isUpdateAction action = true)
    (hupd : jget action "updates".toList = some (Json.obj us))
    (hnd : (us.map Prod.fst).Nodup)
    (hsv : fieldsGet us "status".toList = some sv)
    (htr : truthy sv = true)
    (hal : statusAllowed sv = false) :
    projectChatPOST (some uid) store projectId reply nowIso =
      ⟨⟨200, projChatBody (trimStr (replaceFirst reply whole)) true
          (some (Json.obj (objDelete us "status".toList)))⟩,
       store.map (fun e => if rowMatch projectId uid e then
         { e with
           data := Json.obj (jsMerge (spreadFields project.data) (objDelete us "status".toList))
           updated_at := nowIso }
         else e),
       true, true⟩ ∧
    fieldsGet (objDelete us "status".toList) "status".toList = none ∧
    (∀ k v, k ≠ "status".toList → fieldsGet us k = some v →
       fieldsGet (jsMerge (spreadFields project.data) (objDelete us "status".toList)) k =
         some v) := by
  refine ⟨?_, fieldsGet_objDelete_self us "status".toList hnd, ?_⟩
  · simp only [projectChatPOST, hfil, hscan, hjson, hcat, bne_self_eq_false, Bool.false_eq_true,
      if_false]
    rw [hact, hupd]
    have hsv2 : jget (Json.obj us) "status".toList = some sv := hsv
    simp only [Option.getD_some, show otruthy (some (Json.obj us)) = true from rfl, Bool.true_and,
      hsv2, show otruthy (some sv) = truthy sv from rfl, htr, hal, Bool.not_false, Bool.and_self,
      if_true,
      show jdelField (Json.obj us) "status".toList = Json.obj (objDelete us "status".toList) from
        rfl,
      show spreadFields (Json.obj (objDelete us "status".toList)) = objDelete us "status".toList
        from rfl]
  · intro k v hk hkv
    rw [fieldsGet_jsMerge _ _ _ (nodup_objDelete us "status".toList hnd)]
    rw [fieldsGet_objDelete_ne us "status".toList k hk, hkv]

/-- Project row used by the C6 instances: status active, goal launch. -/
def c6proj : Entry :=
  ⟨"p1".toList, "u1".toList, "projects".toList,
   Json.obj [("goal".toList, Json.str "launch".toList),
             ("status".toList, Json.str "active".toList)],
   (1, 0), false, false, [], 1, []⟩

/-- Project-chat reply whose update carries the out-of-set (and falsy)
status value empty string alongside a goal field. -/
def c6reply : Str :=
  "Sure. \x7b\"action\": \"update\", \"updates\": \x7b\"status\": \"\", \"goal\": \"G2\"\x7d\x7d".toList

/-- C6 counterexample to the claim as stated: with the out-of-set status
value empty string (falsy), the status key is not removed; the merged data
ends with status set to the empty string instead of keeping the stored
active status, while the goal field applies. -/
theorem C6_falsy_status_kept :
    ((projectChatPOST (some "u1".toList) [c6proj] "p1".toList c6reply "z".toList).store.map
       (fun e => jget e.data "status".toList)) = [some (Json.str [])] ∧
    ((projectChatPOST (some "u1".toList) [c6proj] "p1".toList c6reply "z".toList).store.map
       (fun e => jget e.data "goal".toList)) = [some (Json.str "G2".toList)] ∧
    Json.str [] ≠ Json.str "active".toList := by
  refine ⟨rfl, rfl, ?_⟩
  intro h
  injection h with h2
  exact List.noConfusion h2

/-- Project-chat reply whose update carries the truthy out-of-set status
value archived alongside a goal field, for the C6 witness. -/
def c6replyArch : Str :=
  "Ok. \x7b\"action\": \"update\", \"updates\": \x7b\"status\": \"archived\", \"goal\": \"G3\"\x7d\x7d".toList

/-- The matched block inside `c6replyArch`. -/
def c6blockArch : Str :=
  "\x7b\"action\": \"update\", \"updates\": \x7b\"status\": \"archived\", \"goal\": \"G3\"\x7d\x7d".toList

/-- The updates map parsed from `c6replyArch`. -/
def c6updates : List (Str × Json) :=
  [("status".toList, Json.str "archived".toList), ("goal".toList, Json.str "G3".toList)]

/-- C6 witness: the amended theorem applied to the archived status update;
the status key is dropped and the goal field is applied. -/
theorem C6_status_validation_witness :
    projectChatPOST (some "u1".toList) [c6proj] "p1".toList c6replyArch "z".toList =
      ⟨⟨200, projChatBody (trimStr (replaceFirst c6replyArch c6blockArch)) true
          (some (Json.obj (objDelete c6updates "status".toList)))⟩,
       [c6proj].map (fun e => if rowMatch "p1".toList "u1".toList e then
         { e with
           data := Json.obj (jsMerge (spreadFields c6proj.data)
             (objDelete c6updates "status".toList))
           updated_at := "z".toList }
         else e),
       true, true⟩ ∧
    fieldsGet (objDelete c6updates "status".toList) "status".toList = none ∧
    (∀ k v, k ≠ "status".toList → fieldsGet c6updates k = some v →
       fieldsGet (jsMerge (spreadFields c6proj.data) (objDelete c6updates "status".toList)) k =
         some v) :=
  C6_status_validation "u1".toList "p1".toList [c6proj] c6replyArch "z".toList c6proj
    "Ok. ".toList c6blockArch c6blockArch [] (Json.obj [("action".toList,
      Json.str "update".toList), ("updates".toList, Json.obj c6updates)])
    c6updates (Json.str "archived".toList)
    rfl rfl rfl rfl rfl rfl (by decide) rfl rfl rfl

/-! ### C4: the trailing priority-update block -/

/-- A successful prefix test decomposes the string. -/
theorem startsWith_eq (pat : Str) : ∀ (s : Str), startsWith s pat = true →
    s = pat ++ s.drop pat.length := by
  induction pat with
  | nil =>
    intro s _
    simp
  | cons p ps ih =>
    intro s h
    cases s with
    | nil => simp [startsWith] at h
    | cons c cs =>
      simp only [startsWith, Bool.and_eq_true, beq_iff_eq] at h
      obtain ⟨h1, h2⟩ := h
      cases h1
      simpa using congrArg (List.cons p) (ih cs h2)

/-- The prefix test accepts the prefix itself. -/
theorem startsWith_append_self (pat rest : Str) : startsWith (pat ++ rest) pat = true := by
  induction pat with
  | nil => simp [startsWith]
  | cons p ps ih => simp [startsWith, ih]

/-- A pattern piece is splitting when every successful match consumes a
prefix: the input is the matched text followed by the rest. -/
def MatchSplits (f : Str → MRes) : Prop :=
  ∀ s m r, f s = some (m, r) → s = m ++ r

/-- Literal pieces are splitting. -/
theorem mLit_inv (pat : Str) : MatchSplits (mLit pat) := by
  intro s m r h
  unfold mLit at h
  by_cases hs : startsWith s pat = true
  · rw [if_pos hs] at h
    injection h with h2
    injection h2 with h3 h4
    rw [← h3, ← h4]
    exact startsWith_eq pat s hs
  · rw [if_neg hs] at h
    exact absurd h (by simp)

/-- The whitespace piece is splitting. -/
theorem mWS_inv : MatchSplits mWS := by
  intro s m r h
  unfold mWS at h
  injection h with h2
  injection h2 with h3 h4
  rw [← h3, ← h4]
  exact (List.takeWhile_append_dropWhile isJsWS s).symm

/-- The quoted piece is splitting. -/
theorem mQuoted_inv : MatchSplits mQuoted := by
  intro s m r h
  cases s with
  | nil => exact absurd h (by simp [mQuoted])
  | cons c cs =>
    by_cases hc : c = '"'
    · subst hc
      by_cases hb : (cs.takeWhile (fun x => x != '"')).isEmpty
      · simp [mQuoted, hb] at h
      · cases hrest : cs.dropWhile (fun x => x != '"') with
        | nil => simp [mQuoted, hb, hrest] at h
        | cons d r2 =>
          by_cases hd : d = '"'
          · subst hd
            simp only [mQuoted, hb, hrest, if_true, Bool.false_eq_true, if_false,
              Option.some.injEq, Prod.mk.injEq] at h
            obtain ⟨h3, h4⟩ := h
            rw [← h3, ← h4]
            have hsplit : cs.takeWhile (fun x => x != '"') ++ ('"' :: r2) = cs := by
              rw [← hrest]
              exact List.takeWhile_append_dropWhile _ cs
            calc ('"' : Char) :: cs
                = '"' :: (cs.takeWhile (fun x => x != '"') ++ ('"' :: r2)) := by rw [hsplit]
              _ = ('"' :: (cs.takeWhile (fun x => x != '"') ++ ['"'])) ++ r2 := by simp
          · simp [mQuoted, hb, hrest, hd] at h
    · simp [mQuoted, hc] at h

/-- The braced piece is splitting. -/
theorem mBraced_inv : MatchSplits mBraced := by
  intro s m r h
  cases s with
  | nil => exact absurd h (by simp [mBraced])
  | cons c cs =>
    by_cases hc : c = '\x7b'
    · subst hc
      cases hrest : cs.dropWhile (fun x => x != '\x7b' && x != '\x7d') with
      | nil => simp [mBraced, hrest] at h
      | cons d r2 =>
        by_cases hd : d = '\x7d'
        · subst hd
          simp only [mBraced, hrest, if_true, Option.some.injEq, Prod.mk.injEq] at h
          obtain ⟨h3, h4⟩ := h
          rw [← h3, ← h4]
          have hsplit : cs.takeWhile (fun x => x != '\x7b' && x != '\x7d') ++ ('\x7d' :: r2) = cs := by
            rw [← hrest]
            exact List.takeWhile_append_dropWhile _ cs
          calc ('\x7b' : Char) :: cs
              = '\x7b' :: (cs.takeWhile (fun x => x != '\x7b' && x != '\x7d') ++ ('\x7d' :: r2)) := by
                rw [hsplit]
            _ = ('\x7b' :: (cs.takeWhile (fun x => x != '\x7b' && x != '\x7d') ++ ['\x7d'])) ++ r2 := by
                simp
        · simp [mBraced, hrest, hd] at h
    · simp [mBraced, hc] at h

/-- Sequencing preserves the splitting property. -/
theorem mSeq_inv (f g : Str → MRes) (hf : MatchSplits f) (hg : MatchSplits g) :
    MatchSplits (mSeq f g) := by
  intro s m r h
  unfold mSeq at h
  cases hfs : f s with
  | none => rw [hfs] at h; exact absurd h (by simp)
  | some p =>
    rw [hfs] at h
    replace h : Option.map (fun q => (p.1 ++ q.1, q.2)) (g p.2) = some (m, r) := h
    cases hgs : g p.2 with
    | none => rw [hgs] at h; exact absurd h (by simp)
    | some q =>
      rw [hgs] at h
      replace h : (p.1 ++ q.1, q.2) = (m, r) := Option.some.inj h
      injection h with h3 h4
      rw [← h3, ← h4]
      rw [List.append_assoc]
      rw [← hg p.2 q.1 q.2 (by rw [hgs])]
      exact hf s p.1 p.2 (by rw [hfs])

/-- Alternation preserves the splitting property. -/
theorem mAlt_inv (f g : Str → MRes) (hf : MatchSplits f) (hg : MatchSplits g) :
    MatchSplits (mAlt f g) := by
  intro s m r h
  unfold mAlt at h
  cases hfs : f s with
  | none => rw [hfs] at h; exact hg s m r h
  | some p => rw [hfs] at h; injection h with h2; exact hf s m r (by rw [hfs, h2])

/-- The first task alternative is splitting. -/
theorem taskAlt1_inv : MatchSplits taskAlt1 := by
  unfold taskAlt1
  exact mSeq_inv _ _ (mLit_inv _) (mSeq_inv _ _ mWS_inv (mSeq_inv _ _ mQuoted_inv
    (mSeq_inv _ _ (mLit_inv _) (mSeq_inv _ _ mWS_inv (mSeq_inv _ _
      (mAlt_inv _ _ (mLit_inv _) (mLit_inv _)) (mSeq_inv _ _ mWS_inv
        (mSeq_inv _ _ mBraced_inv (mSeq_inv _ _ mWS_inv (mLit_inv _)))))))))

/-- The second task alternative is splitting. -/
theorem taskAlt2_inv : MatchSplits taskAlt2 := by
  unfold taskAlt2
  exact mSeq_inv _ _ (mLit_inv _) (mSeq_inv _ _ mWS_inv (mSeq_inv _ _ mQuoted_inv
    (mSeq_inv _ _ (mLit_inv _) (mSeq_inv _ _ mWS_inv (mSeq_inv _ _ (mLit_inv _)
      (mSeq_inv _ _ mWS_inv (mSeq_inv _ _ mQuoted_inv (mSeq_inv _ _ mWS_inv (mLit_inv _)))))))))

/-- The task action pattern is splitting. -/
theorem taskActionPat_inv : MatchSplits taskActionPat := by
  unfold taskActionPat
  exact mAlt_inv _ _ taskAlt1_inv taskAlt2_inv

/-- A leftmost scan decomposes the input around the match. -/
theorem scanSplit_eq (p : Str → MRes) (hp : MatchSplits p) :
    ∀ (s pre m post : Str), scanSplit p s = some (pre, m, post) → s = pre ++ m ++ post := by
  intro s
  induction s with
  | nil =>
    intro pre m post h
    unfold scanSplit at h
    cases hps : p [] with
    | none => rw [hps] at h; exact absurd h (by simp)
    | some q =>
      rw [hps] at h
      replace h : ([], q.1, q.2) = (pre, m, post) := Option.some.inj h
      injection h with h1 h2
      injection h2 with h2 h3
      rw [← h1, ← h2, ← h3]
      simpa using hp [] q.1 q.2 (by rw [hps])
  | cons c cs ih =>
    intro pre m post h
    unfold scanSplit at h
    cases hps : p (c :: cs) with
    | some q =>
      rw [hps] at h
      replace h : ([], q.1, q.2) = (pre, m, post) := Option.some.inj h
      injection h with h1 h2
      injection h2 with h2 h3
      rw [← h1, ← h2, ← h3]
      simpa using hp (c :: cs) q.1 q.2 (by rw [hps])
    | none =>
      rw [hps] at h
      cases hscan : scanSplit p cs with
      | none => rw [hscan] at h; exact absurd h (by simp)
      | some t =>
        rw [hscan] at h
        replace h : (c :: t.1, t.2.1, t.2.2) = (pre, m, post) := Option.some.inj h
        injection h with h1 h2
        injection h2 with h2 h3
        rw [← h1, ← h2, ← h3]
        simpa using ih t.1 t.2.1 t.2.2 (by rw [hscan])

/-- A leftmost scan admits no match at any earlier position. -/
theorem scanSplit_min (p : Str → MRes) :
    ∀ (s pre m post : Str), scanSplit p s = some (pre, m, post) →
      ∀ i, i < pre.length → p (s.drop i) = none := by
  intro s
  induction s with
  | nil =>
    intro pre m post h i hi
    unfold scanSplit at h
    cases hps : p [] with
    | none => rw [hps] at h; exact absurd h (by simp)
    | some q =>
      rw [hps] at h
      replace h : ([], q.1, q.2) = (pre, m, post) := Option.some.inj h
      injection h with h1 h2
      rw [← h1] at hi
      exact absurd hi (by simp)
  | cons c cs ih =>
    intro pre m post h i hi
    unfold scanSplit at h
    cases hps : p (c :: cs) with
    | some q =>
      rw [hps] at h
      replace h : ([], q.1, q.2) = (pre, m, post) := Option.some.inj h
      injection h with h1 h2
      rw [← h1] at hi
      exact absurd hi (by simp)
    | none =>
      rw [hps] at h
      cases hscan : scanSplit p cs with
      | none => rw [hscan] at h; exact absurd h (by simp)
      | some t =>
        rw [hscan] at h
        replace h : (c :: t.1, t.2.1, t.2.2) = (pre, m, post) := Option.some.inj h
        injection h with h1 h2
        injection h2 with h2 h3
        cases i with
        | zero => simpa using hps
        | succ j =>
          rw [← h1] at hi
          simp only [List.length_cons, Nat.succ_lt_succ_iff] at hi
          simpa using ih t.1 t.2.1 t.2.2 (by rw [hscan]) j hi

/-- When the pattern occurs at no earlier position, the first-occurrence
replace removes exactly the exhibited occurrence. -/
theorem replaceFirst_split (pat post : Str) :
    ∀ (pre : Str), (∀ i, i < pre.length →
      startsWith ((pre ++ pat ++ post).drop i) pat = false) →
    replaceFirst (pre ++ pat ++ post) pat = pre ++ post := by
  intro pre
  induction pre with
  | nil =>
    intro _
    simp only [List.nil_append]
    unfold replaceFirst
    rw [if_pos (startsWith_append_self pat post)]
    cases pat with
    | nil => simp
    | cons a as => simp [List.drop_left]
  | cons c pre2 ih =>
    intro hno
    have h0 : startsWith ((c :: pre2 ++ pat ++ post)) pat = false := by
      have := hno 0 (by simp)
      simpa using this
    cases pat with
    | nil => simp [startsWith] at h0
    | cons a as =>
      show replaceFirst (c :: (pre2 ++ (a :: as) ++ post)) (a :: as) = c :: (pre2 ++ post)
      unfold replaceFirst
      rw [if_neg (by simpa using h0)]
      refine congrArg (List.cons c) (ih ?_)
      intro i hi
      have := hno (i + 1) (by simpa using Nat.succ_lt_succ hi)
      simpa using this

/-- The literal action block of claim C4. -/
def c4block : Str :=
  "\x7b\"action\":\"update\",\"updates\":\x7b\"priority\":\"high\"\x7d\x7d".toList

/-- The updates object inside the C4 block. -/
def c4updatesJ : Json := Json.obj [("priority".toList, Json.str "high".toList)]

/-- The parse of the C4 block. -/
def c4action : Json :=
  Json.obj [("action".toList, Json.str "update".toList), ("updates".toList, c4updatesJ)]

/-- The task action pattern matches the C4 block at its head, whatever
follows. -/
theorem taskActionPat_at_c4block (r : Str) : taskActionPat (c4block ++ r) = some (c4block, r) :=
  rfl

/-- The C4 block parses to its action object. -/
theorem c4block_parse : jsonParse c4block = some c4action := rfl

/-- C4 (amended): whenever the leftmost task-action match of the reply is
the block setting priority to high, the handler persists the stored data
shallow-merged with that priority (stamping updated_at) and returns the
reply with that block removed and trimmed.  When the trailing block is the
only action block in the reply the leftmost match is that block, which is
the case the original claim describes; an earlier action block instead
wins the scan, which is the departure the counterexample exhibits. -/
theorem C4_trailing_priority_update (uid taskId : Str) (store : Store)
    (message reply nowIso : Str) (jd : Str → Option Int) (nowMs : Int)
    (task : Entry) (pre post : Str)
    (hfil : store.filter (rowMatch taskId uid) = [task])
    (hcat : task.category = "tasks".toList)
    (hscan : scanSplit taskActionPat reply = some (pre, c4block, post)) :
    taskChatPOST (some uid) store taskId message reply jd nowMs nowIso =
      ⟨⟨200, taskChatBody (trimStr (pre ++ post)) true⟩,
       store.map (fun e => if rowMatch taskId uid e then
         { e with
           data := Json.obj (objInsert (spreadFields task.data) "priority".toList
             (Json.str "high".toList))
           updated_at := nowIso }
         else e),
       true, true⟩ ∧
    fieldsGet (objInsert (spreadFields task.data) "priority".toList (Json.str "high".toList))
      "priority".toList = some (Json.str "high".toList) := by
  constructor
  · have heq : reply = pre ++ c4block ++ post :=
      scanSplit_eq taskActionPat taskActionPat_inv reply pre c4block post hscan
    have hrep : replaceFirst reply c4block = pre ++ post := by
      rw [heq]
      apply replaceFirst_split
      intro i hi
      by_contra hsw
      rw [Bool.not_eq_false] at hsw
      have hdrop := startsWith_eq c4block _ hsw
      have hmin := scanSplit_min taskActionPat reply pre c4block post hscan i hi
      rw [heq, hdrop] at hmin
      rw [taskActionPat_at_c4block] at hmin
      exact Option.noConfusion hmin
    have hm : ∀ A, jsMerge A (spreadFields c4updatesJ) =
        objInsert A "priority".toList (Json.str "high".toList) := fun A => rfl
    simp only [taskChatPOST, hfil, hscan, hcat, bne_self_eq_false, Bool.false_eq_true, if_false,
      c4block_parse]
    simp only [show isUpdateAction c4action = true from rfl,
      show jget c4action "updates".toList = some c4updatesJ from rfl,
      show otruthy (some c4updatesJ) = true from rfl,
      Bool.and_self, if_true, Option.getD_some,
      show jget c4updatesJ "notes".toList = none from rfl,
      show otruthy (none : Option Json) = false from rfl,
      Bool.false_and, Bool.false_eq_true, if_false,
      show jget c4updatesJ "deadline".toList = none from rfl, hm, hrep]
  · simp [fieldsGet_objInsert]

/-- Task row used by the C4 instances. -/
def c4task : Entry :=
  ⟨"t1".toList, "u1".toList, "tasks".toList,
   Json.obj [("task".toList, Json.str "buy milk".toList),
             ("priority".toList, Json.str "medium".toList)],
   (1, 0), false, false, [], 1, []⟩

/-- Reply holding an earlier action block (priority low) before the
trailing block (priority high). -/
def c4decoyReply : Str :=
  "\x7b\"action\":\"update\",\"updates\":\x7b\"priority\":\"low\"\x7d\x7d ok \x7b\"action\":\"update\",\"updates\":\x7b\"priority\":\"high\"\x7d\x7d".toList

/-- The reply text the handler returns for the decoy reply: the earlier
block is stripped, the trailing block survives. -/
def c4decoyResponse : Str :=
  "ok \x7b\"action\":\"update\",\"updates\":\x7b\"priority\":\"high\"\x7d\x7d".toList

/-- C4 counterexample to the claim as stated: on a reply that contains the
trailing priority-high block after an earlier action block, the handler
persists priority low (the leftmost match wins) and returns a text that
still contains the trailing block. -/
theorem C4_leftmost_wins :
    ((taskChatPOST (some "u1".toList) [c4task] "t1".toList "m".toList c4decoyReply
        (fun _ => none) 0 "z".toList).store.map
       (fun e => jget e.data "priority".toList)) = [some (Json.str "low".toList)] ∧
    (taskChatPOST (some "u1".toList) [c4task] "t1".toList "m".toList c4decoyReply
        (fun _ => none) 0 "z".toList).resp.body = taskChatBody c4decoyResponse true ∧
    containsStr c4decoyResponse c4block = true ∧
    Json.str "low".toList ≠ Json.str "high".toList := by
  refine ⟨rfl, rfl, by decide, ?_⟩
  intro h
  injection h with h2
  exact absurd h2 (by decide)

/-- Reply used by the C4 witness: prose followed by the trailing block. -/
def c4wreply : Str := "Done. ".toList ++ c4block

/-- C4 witness: the amended theorem applied to a concrete reply whose only
action block is the trailing priority-high block. -/
theorem C4_trailing_priority_witness :
    taskChatPOST (some "u1".toList) [c4task] "t1".toList "m".toList c4wreply
        (fun _ => none) 0 "z".toList =
      ⟨⟨200, taskChatBody (trimStr ("Done. ".toList ++ [])) true⟩,
       [c4task].map (fun e => if rowMatch "t1".toList "u1".toList e then
         { e with
           data := Json.obj (objInsert (spreadFields c4task.data) "priority".toList
             (Json.str "high".toList))
           updated_at := "z".toList }
         else e),
       true, true⟩ ∧
    fieldsGet (objInsert (spreadFields c4task.data) "priority".toList (Json.str "high".toList))
      "priority".toList = some (Json.str "high".toList) :=
  C4_trailing_priority_update "u1".toList "t1".toList [c4task] "m".toList c4wreply "z".toList
    (fun _ => none) 0 c4task "Done. ".toList [] rfl rfl rfl

/-! ### C7: the natural-language date resolver -/

/-- The clock-time pattern matches nothing in a digit-free string. -/
theorem findClockMatch_none : ∀ (s : Str), (∀ c ∈ s, c.isDigit = false) →
    findClockMatch s = none := by
  intro s h
  induction s with
  | nil => rfl
  | cons c cs ih =>
    simp only [findClockMatch, h c (List.mem_cons_self c cs), Bool.false_eq_true, if_false]
    exact ih (fun x hx => h x (List.mem_cons_of_mem c hx))

/-- C7 (amended): the date resolver maps tomorrow to now plus one day
preserving the time of day (midnight only when now is midnight), next week
to now plus seven days, and interprets any other input containing a digit
through the clock-time pattern (shown on the generic date 2025-12-25,
which becomes 20:00 of the current day independently of the generic date
oracle); a digit-free input that is no keyword falls through to generic
date parsing, and when that fails the resolver returns null — in which
case the task-chat handler persists the literal caller input as the
deadline (the field is not skipped from the update). -/
theorem C7_resolver_behaviour :
    (∀ (jd : Str → Option Int) (now : Int),
       parseNaturalDate jd now "tomorrow".toList = some (toISOStringM (now + dayMs))) ∧
    (∀ (jd : Str → Option Int) (now : Int),
       parseNaturalDate jd now "next week".toList = some (toISOStringM (now + 7 * dayMs))) ∧
    (∀ (jd : Str → Option Int) (now : Int),
       parseNaturalDate jd now "2025-12-25".toList =
         some (toISOStringM (midnightOf now + 20 * hourMs))) ∧
    (∀ (jd : Str → Option Int) (now : Int) (input : Str),
       toLowerStr (trimStr input) ≠ "today".toList →
       toLowerStr (trimStr input) ≠ "tomorrow".toList →
       toLowerStr (trimStr input) ≠ "next week".toList →
       (∀ c ∈ toLowerStr (trimStr input), c.isDigit = false) →
       jd input = none →
       parseNaturalDate jd now input = none) ∧
    (∀ (uid taskId : Str) (store : Store) (message reply nowIso : Str)
       (jd : Str → Option Int) (nowMs : Int) (task : Entry) (pre m post : Str)
       (action : Json) (us : List (Str × Json)) (d : Str),
       store.filter (rowMatch taskId uid) = [task] →
       task.category = "tasks".toList →
       scanSplit taskActionPat reply = some (pre, m, post) →
       jsonParse m = some action →
       isUpdateAction action = true →
       jget action "updates".toList = some (Json.obj us) →
       (us.map Prod.fst).Nodup →
       fieldsGet us "notes".toList = none →
       fieldsGet us "deadline".toList = some (Json.str d) →
       parseNaturalDate jd nowMs d = none →
       taskChatPOST (some uid) store taskId message reply jd nowMs nowIso =
         ⟨⟨200, taskChatBody (trimStr (replaceFirst reply m)) true⟩,
          store.map (fun e => if rowMatch taskId uid e then
            { e with
              data := Json.obj (jsMerge (spreadFields task.data) us)
              updated_at := nowIso }
            else e),
          true, true⟩ ∧
       fieldsGet (jsMerge (spreadFields task.data) us) "deadline".toList =
         some (Json.str d)) := by
  refine ⟨fun jd now => rfl, fun jd now => rfl, fun jd now => ?_, ?_, ?_⟩
  · show some (toISOStringM (jsSetHours now 20 0)) = _
    have : jsSetHours now 20 0 = midnightOf now + 20 * hourMs := by
      unfold jsSetHours
      push_cast
      ring
    rw [this]
  · intro jd now input ht1 ht2 ht3 hdig hj
    unfold parseNaturalDate
    rw [if_neg ht1, if_neg ht2, if_neg ht3, findClockMatch_none _ hdig, hj]
  · intro uid taskId store message reply nowIso jd nowMs task pre m post action us d
      hfil hcat hscan hjson hact hupd hnd hnotes hdl hpnd
    constructor
    · simp only [taskChatPOST, hfil, hscan, hjson, hcat, bne_self_eq_false, Bool.false_eq_true,
        if_false]
      rw [hact]
      have hnotes2 : jget (Json.obj us) "notes".toList = none := hnotes
      have hdl2 : jget (Json.obj us) "deadline".toList = some (Json.str d) := hdl
      simp only [hupd, Option.getD_some, show otruthy (some (Json.obj us)) = true from rfl,
        Bool.true_and, if_true, hnotes2, show otruthy (none : Option Json) = false from rfl,
        Bool.false_and, Bool.false_eq_true, if_false, hdl2,
        show isStrOpt (some (Json.str d)) = true from rfl, Bool.not_true, Bool.and_false,
        hpnd, ite_self,
        show spreadFields (Json.obj us) = us from rfl]
    · rw [fieldsGet_jsMerge _ _ _ hnd, hdl]

/-- Clock value used by the C7 instances (a time of day well past
midnight). -/
def c7now : Int := 55000123

/-- C7 counterexample to the claim as stated: at a non-midnight clock,
tomorrow resolves to the same time of day on the next calendar day rather
than to midnight; and the digit-bearing generic date 2025-12-25 resolves
to 20:00 of the current day rather than to its normalized calendar value
(1766620800000 ms), even when the generic oracle can parse it. -/
theorem C7_tomorrow_not_midnight :
    parseNaturalDate (fun _ => none) c7now "tomorrow".toList =
      some (toISOStringM (c7now + dayMs)) ∧
    toISOStringM (c7now + dayMs) ≠ toISOStringM (midnightOf (c7now + dayMs)) ∧
    parseNaturalDate (fun _ => some 1766620800000) c7now "2025-12-25".toList =
      some (toISOStringM (midnightOf c7now + 20 * hourMs)) ∧
    toISOStringM (midnightOf c7now + 20 * hourMs) ≠ toISOStringM 1766620800000 := by
  exact ⟨rfl, by decide, rfl, by decide⟩

/-- Task row used by the C7 witness. -/
def c7task : Entry :=
  ⟨"t1".toList, "u1".toList, "tasks".toList,
   Json.obj [("task".toList, Json.str "call mom".toList)],
   (1, 0), false, false, [], 1, []⟩

/-- Action block with an unresolvable deadline string. -/
def c7block : Str :=
  "\x7b\"action\":\"update\",\"updates\":\x7b\"deadline\":\"someday\"\x7d\x7d".toList

/-- Reply used by the C7 witness. -/
def c7reply : Str := "Ok. ".toList ++ c7block

/-- The updates map parsed from the C7 block. -/
def c7us : List (Str × Json) := [("deadline".toList, Json.str "someday".toList)]

/-- C7 witness: the resolver returns null on the digit-free unresolvable
string someday, and the handler then persists that literal string as the
deadline. -/
theorem C7_resolver_witness :
    parseNaturalDate (fun _ => none) 0 "someday".toList = none ∧
    taskChatPOST (some "u1".toList) [c7task] "t1".toList "m".toList c7reply
        (fun _ => none) 0 "z".toList =
      ⟨⟨200, taskChatBody (trimStr (replaceFirst c7reply c7block)) true⟩,
       [c7task].map (fun e => if rowMatch "t1".toList "u1".toList e then
         { e with
           data := Json.obj (jsMerge (spreadFields c7task.data) c7us)
           updated_at := "z".toList }
         else e),
       true, true⟩ ∧
    fieldsGet (jsMerge (spreadFields c7task.data) c7us) "deadline".toList =
      some (Json.str "someday".toList) :=
  ⟨C7_resolver_behaviour.2.2.2.1 (fun _ => none) 0 "someday".toList (by decide) (by decide)
     (by decide) (by decide) rfl,
   (C7_resolver_behaviour.2.2.2.2 "u1".toList "t1".toList [c7task] "m".toList c7reply "z".toList
     (fun _ => none) 0 c7task "Ok. ".toList c7block [] (Json.obj [("action".toList,
       Json.str "update".toList), ("updates".toList, Json.obj c7us)]) c7us "someday".toList
     rfl rfl rfl rfl rfl rfl (by decide) rfl rfl rfl).1,
   (C7_resolver_behaviour.2.2.2.2 "u1".toList "t1".toList [c7task] "m".toList c7reply "z".toList
     (fun _ => none) 0 c7task "Ok. ".toList c7block [] (Json.obj [("action".toList,
       Json.str "update".toList), ("updates".toList, Json.obj c7us)]) c7us "someday".toList
     rfl rfl rfl rfl rfl rfl (by decide) rfl rfl rfl).2⟩
